import Mathlib

/-!
Verification of the WFS user-space RAID filesystem (wfs.c, mkfs.c, wfs.h).

This file gives a shallow embedding of the on-disk data model and of the
operations of the filesystem server and initializer, and proves or refutes
the specification claims about them.

Modelling conventions, recorded once here and referenced from the
individual definitions:

* Machine integers are modelled as Nat (sizes, offsets, inode numbers) or
  Int (error codes, checksums).  Where 32-bit wraparound of a C int is
  observable (the RAID1V checksum accumulator) the addition is wrapped
  explicitly with wrap32.
* A disk image (one mmap region) is modelled structurally: the two bitmaps
  as Nat-indexed Bool maps (the C code packs them into 32-bit words, but
  every bitmap operation in the source addresses exactly one bit:
  bitmap[pos >> 5] with mask 1 << (pos & 31) is bit number pos), the inode
  region as a map from inode number to an inode record, and the data
  region as a map from absolute byte offset to byte value 0..255.
  Directory content physically lives in data blocks as packed 32-byte
  entries; it is modelled structurally as a list of entries per directory
  inode (slot i of the list is the entry at byte offset 32*i), which is
  faithful because every directory walk in the source iterates those
  offsets in order through the block resolver.
* Block pointers are absolute byte offsets, 0 meaning null, exactly as the
  off_t values stored in the inode.  The indirect block is a data block
  holding 64 little-endian 8-byte offsets; it is read and written through
  readOff / writeOff on the raw byte map.
* C functions that mutate through pointers become state-passing functions
  FS → ... → FS.  A C function returning a pointer that may be NULL
  returns an Option.  The wfs.c state-machine loops (read, write, unlink
  walk the disks via a RaidManager state enum) are linear loops over the
  disk index; they are modelled as fuel-indexed recursions whose fuel is
  the disk count (the loops advance current_disk by one per round and stop
  at the last disk, so the fuel never runs out).
-/

namespace WFS

/-- BLOCK_SIZE from wfs.h. -/
def BLOCK_SIZE : Nat := 512

/-- MAX_NAME from wfs.h. -/
def MAX_NAME : Nat := 28

/-- D_BLOCK from wfs.h: index of the last direct block pointer. -/
def D_BLOCK : Nat := 6

/-- IND_BLOCK from wfs.h: index of the single indirect block pointer. -/
def IND_BLOCK : Nat := 7

/-- N_BLOCKS from wfs.h: size of the inode block pointer table. -/
def N_BLOCKS : Nat := 8

/-- RAID mode constants from wfs.h. -/
def RAID0 : Nat := 0

/-- RAID1 mode constant from wfs.h. -/
def RAID1 : Nat := 1

/-- RAID1V (mirroring with voting) mode constant from wfs.h. -/
def RAID1V : Nat := 2

/-- errno value ENOENT (no such entry). -/
def ENOENT : Int := 2

/-- errno value ENOSPC (no space). -/
def ENOSPC : Int := 28

/-- struct wfs_dentry: a 28-byte zero-padded name and a 4-byte inode
number; inode number 0 marks a free slot. -/
structure Dentry where
  name : String
  num : Nat
  deriving Repr, DecidableEq

/-- struct wfs_inode.  The block pointer table blocks is the 8-entry
off_t array of wfs.h; only indices 0..7 are meaningful (the map form
avoids dependent Fin indexing).  Block pointer values are absolute byte
offsets into the disk image, 0 meaning unallocated. -/
structure Inode where
  num : Nat
  mode : Nat
  uid : Nat
  gid : Nat
  size : Nat
  nlinks : Nat
  atim : Int
  mtim : Int
  ctim : Int
  blocks : Nat → Nat

/-- The all-zero inode record: what a BLOCK_SIZE memset of the record
leaves behind. -/
def zeroInode : Inode := ⟨0, 0, 0, 0, 0, 0, 0, 0, 0, fun _ => 0⟩

instance : Inhabited Inode := ⟨zeroInode⟩

/-- struct wfs_sb: the superblock.  The four region pointers are byte
offsets into the disk image. -/
structure SB where
  num_inodes : Nat
  num_data_blocks : Nat
  i_bitmap_ptr : Nat
  d_bitmap_ptr : Nat
  i_blocks_ptr : Nat
  d_blocks_ptr : Nat
  fs_identifier : Int
  raid_mode : Nat
  device_order : Nat

instance : Inhabited SB := ⟨⟨0, 0, 0, 0, 0, 0, 0, 0, 0⟩⟩

/-- One memory-mapped disk image, decomposed into its regions (see the
module header for the representation conventions).  dirs inum is the
packed dentry array stored in the data blocks of directory inode inum. -/
structure Disk where
  sb : SB
  iBitmap : Nat → Bool
  dBitmap : Nat → Bool
  inodes : Nat → Inode
  data : Nat → Nat
  dirs : Nat → List Dentry

instance : Inhabited Disk :=
  ⟨⟨default, fun _ => false, fun _ => false, fun _ => zeroInode, fun _ => 0, fun _ => []⟩⟩

/-- The mounted filesystem: the global variables of wfs.c
(fs_memory_regions as the list of disks, raid_mode, error_code;
total_devices is disks.length). -/
structure FS where
  disks : List Disk
  raidMode : Nat
  errorCode : Int

/-- fs_memory_regions[d], with an arbitrary default out of range. -/
def FS.disk (fs : FS) (d : Nat) : Disk := fs.disks.getD d default

/-- Replace disk d in the filesystem state. -/
def FS.setDisk (fs : FS) (d : Nat) (dk : Disk) : FS :=
  { fs with disks := fs.disks.set d dk }

/-! ## mkfs.c: layout calculation and option validation -/

/-- get_aligned_size from mkfs.c: round size up to a 32-boundary. -/
def get_aligned_size (size : Nat) : Nat :=
  let remainder := size % 32
  if remainder ≠ 0 then size + (32 - remainder) else size

/-- sizeof(struct wfs_sb) on the 64-bit target: two size_t (8 each), four
off_t (8 each), two int (4 each), one uint64_t (8) = 64 bytes, with no
padding under natural alignment. -/
def sizeofSB : Nat := 64

/-- The pointers computed by calculate_layout in mkfs.c, plus the total
size it returns. -/
structure Layout where
  i_bitmap_ptr : Nat
  d_bitmap_ptr : Nat
  i_blocks_ptr : Nat
  d_blocks_ptr : Nat
  total : Nat

/-- calculate_layout from mkfs.c: superblock, inode bitmap, data bitmap,
block-aligned inode region, data region.  The bitmap byte counts are
(count + 7) >> 3; the inode region start is aligned up to the next
BLOCK_SIZE boundary, with a correction line leaving it in place when it
is already aligned. -/
def calculate_layout (inodes blocks : Nat) : Layout :=
  let layout_start := sizeofSB
  let inode_bits := (inodes + 7) / 8
  let block_bits := (blocks + 7) / 8
  let i_bitmap_ptr := layout_start
  let d_bitmap_ptr := i_bitmap_ptr + inode_bits
  let inode_start := d_bitmap_ptr + block_bits
  let aligned := inode_start + (BLOCK_SIZE - inode_start % BLOCK_SIZE)
  let i_blocks_ptr := if inode_start % BLOCK_SIZE = 0 then inode_start else aligned
  let d_blocks_ptr := i_blocks_ptr + inodes * BLOCK_SIZE
  ⟨i_bitmap_ptr, d_bitmap_ptr, i_blocks_ptr, d_blocks_ptr, d_blocks_ptr + blocks * BLOCK_SIZE⟩

/-- The -r option validation in main of mkfs.c: any value other than 0
and 1 makes the program clean up and exit(1); otherwise the mode is kept.
The Except error value is the process exit code. -/
def mkfs_raid_check (m : Int) : Except Nat Int :=
  if m ≠ 0 ∧ m ≠ 1 then .error 1 else .ok m

/-! ## wfs.c: bitmap and raw-memory primitives -/

/-- release_bitmap from wfs.c: bitmap[position >> 5] &= ~(1 << (position & 31))
clears exactly bit number position of the packed bit array. -/
def release_bitmap (position : Nat) (bitmap : Nat → Bool) : Nat → Bool :=
  fun p => if p = position then false else bitmap p

/-- Setting one bit of a packed bitmap, as done by allocate_bitmap_block
with bitmap[word_idx] |= 1 << bit. -/
def set_bitmap (position : Nat) (bitmap : Nat → Bool) : Nat → Bool :=
  fun p => if p = position then true else bitmap p

/-- memset(addr, 0, len) on a byte map. -/
def memsetZero (m : Nat → Nat) (addr len : Nat) : Nat → Nat :=
  fun p => if addr ≤ p ∧ p < addr + len then 0 else m p

/-- Reading an off_t from the data region: the little-endian 8-byte load
performed when the C code casts a mapped address to off_t* and
dereferences it. -/
def readOff (m : Nat → Nat) (a : Nat) : Nat :=
  m a + 256 * (m (a + 1) + 256 * (m (a + 2) + 256 * (m (a + 3) + 256 *
    (m (a + 4) + 256 * (m (a + 5) + 256 * (m (a + 6) + 256 * m (a + 7)))))))

/-- Storing an off_t into the data region: the little-endian 8-byte store
performed by assigning through an off_t* into the mapped region. -/
def writeOff (m : Nat → Nat) (a v : Nat) : Nat → Nat :=
  fun p => if a ≤ p ∧ p < a + 8 then v / 256 ^ (p - a) % 256 else m p

/-- allocate_bitmap_block from wfs.c: scan the words left to right, take
the lowest zero bit of the first non-full word (which is the lowest free
bit overall), set it, and return its index; none when every bit in the
len words (32*len bits) is set. -/
def allocate_bitmap_block (bitmap : Nat → Bool) (len : Nat) :
    Option Nat × (Nat → Bool) :=
  match (List.range (32 * len)).find? (fun j => !bitmap j) with
  | some j => (some j, set_bitmap j bitmap)
  | none => (none, bitmap)

/-- release_block from wfs.c: zero the BLOCK_SIZE bytes at absolute
offset blk on the given disk, then clear the data-bitmap bit at index
(blk - d_blocks_ptr) / BLOCK_SIZE. -/
def release_block (fs : FS) (blk : Nat) (disk : Nat) : FS :=
  let dk := fs.disk disk
  let dk := { dk with data := memsetZero dk.data blk BLOCK_SIZE }
  let position := (blk - dk.sb.d_blocks_ptr) / BLOCK_SIZE
  fs.setDisk disk { dk with dBitmap := release_bitmap position dk.dBitmap }

/-- release_inode from wfs.c: memset the whole BLOCK_SIZE inode record to
zero, then clear an inode-bitmap bit.  The source computes the bit as
(inode_address - region_base + i_blocks_ptr) / BLOCK_SIZE; since
inode_address - region_base = i_blocks_ptr + num * BLOCK_SIZE, the bit
actually cleared is num + 2 * (i_blocks_ptr / BLOCK_SIZE) when
i_blocks_ptr is block-aligned (it adds i_blocks_ptr where subtracting it
would yield num).  The model reproduces that arithmetic verbatim. -/
def release_inode (fs : FS) (inum : Nat) (disk : Nat) : FS :=
  let dk := fs.disk disk
  let dk := { dk with inodes := fun n => if n = inum then zeroInode else dk.inodes n }
  let bit_position := (dk.sb.i_blocks_ptr + inum * BLOCK_SIZE + dk.sb.i_blocks_ptr) / BLOCK_SIZE
  fs.setDisk disk { dk with iBitmap := release_bitmap bit_position dk.iBitmap }

/-- get_inode from wfs.c: return the inode record at slot num if the
inode-bitmap bit num is set, else NULL. -/
def get_inode (fs : FS) (num : Nat) (disk : Nat) : Option Inode :=
  if (fs.disk disk).iBitmap num then some ((fs.disk disk).inodes num) else none

/-- allocate_block from wfs.c: allocate a data-bitmap bit and return the
absolute byte offset d_blocks_ptr + BLOCK_SIZE * bit; on exhaustion
return 0 (and leave the state unchanged; the error code is not set). -/
def allocate_block (fs : FS) (disk : Nat) : Nat × FS :=
  let dk := fs.disk disk
  match allocate_bitmap_block dk.dBitmap (dk.sb.num_data_blocks / 32) with
  | (some j, bm) =>
      (dk.sb.d_blocks_ptr + BLOCK_SIZE * j, fs.setDisk disk { dk with dBitmap := bm })
  | (none, _) => (0, fs)

/-- Store value v into slot k of the block pointer table of inode inum on
the given disk (an assignment through the mapped inode record). -/
def set_inode_block (fs : FS) (disk inum k v : Nat) : FS :=
  let dk := fs.disk disk
  let nd := dk.inodes inum
  fs.setDisk disk
    { dk with inodes := fun n => if n = inum then
        { nd with blocks := fun i => if i = k then v else nd.blocks i }
      else dk.inodes n }

/-- Replace the whole data byte map of one disk. -/
def set_disk_data (fs : FS) (disk : Nat) (m : Nat → Nat) : FS :=
  let dk := fs.disk disk
  fs.setDisk disk { dk with data := m }

/-- Overwrite the size field of inode inum on the given disk. -/
def set_inode_size (fs : FS) (disk inum sz : Nat) : FS :=
  let dk := fs.disk disk
  let nd := dk.inodes inum
  fs.setDisk disk
    { dk with inodes := fun n => if n = inum then { nd with size := sz } else dk.inodes n }

/-- Replace the dentry array of directory inode pnum on the given disk. -/
def set_dir_slots (fs : FS) (disk pnum : Nat) (slots : List Dentry) : FS :=
  let dk := fs.disk disk
  fs.setDisk disk
    { dk with dirs := fun n => if n = pnum then slots else dk.dirs n }

/-! ## wfs.c: block resolution (get_block_location) -/

/-- get_block_location from wfs.c, for the inode record of inum living on
disk number disk.  Returns the resolved address as a pair
(disk index, absolute byte offset) — NULL becomes none — together with
the possibly mutated state (the function allocates the indirect block
when it is missing, in both RAID branches and regardless of the alloc
flag, and allocates the data block when alloc is set and the slot is 0).
The RAID0 branch routes logical block k to disk k % total_devices,
replicates the pointer slots on every disk, and returns the computed
address without any null check; the RAID1/RAID1V branch works on the one
disk and returns NULL when the slot is still 0. -/
def get_block_location (fs : FS) (inum : Nat) (offset : Nat) (alloc : Bool)
    (disk : Nat) : Option (Nat × Nat) × FS :=
  let block_num := offset / BLOCK_SIZE
  if block_num > D_BLOCK + BLOCK_SIZE / 8 then (none, fs)
  else if fs.raidMode = RAID0 then
    let target_disk := block_num % fs.disks.length
    if block_num > D_BLOCK then
      let kk := block_num - IND_BLOCK
      let fs1 :=
        if ((fs.disk disk).inodes inum).blocks IND_BLOCK = 0 then
          (List.range fs.disks.length).foldl (fun acc i =>
            let (b, acc1) := allocate_block acc i
            set_inode_block acc1 i inum IND_BLOCK b) fs
        else fs
      let base := ((fs1.disk disk).inodes inum).blocks IND_BLOCK
      let slotVal := readOff (fs1.disk disk).data (base + 8 * kk)
      let fs2 :=
        if alloc ∧ slotVal = 0 then
          let (nb, fsa) := allocate_block fs1 target_disk
          (List.range fsa.disks.length).foldl (fun acc i =>
            let w7 := ((acc.disk i).inodes inum).blocks IND_BLOCK
            set_disk_data acc i (writeOff (acc.disk i).data (w7 + 8 * kk) nb)) fsa
        else fs1
      let v := readOff (fs2.disk disk).data
        (((fs2.disk disk).inodes inum).blocks IND_BLOCK + 8 * kk)
      (some (target_disk, v + offset % BLOCK_SIZE), fs2)
    else
      let slotVal := ((fs.disk disk).inodes inum).blocks block_num
      let fs2 :=
        if alloc ∧ slotVal = 0 then
          let (nb, fsa) := allocate_block fs target_disk
          (List.range fsa.disks.length).foldl (fun acc i =>
            set_inode_block acc i inum block_num nb) fsa
        else fs
      let v := ((fs2.disk disk).inodes inum).blocks block_num
      (some (target_disk, v + offset % BLOCK_SIZE), fs2)
  else
    if block_num > D_BLOCK then
      let kk := block_num - IND_BLOCK
      let fs1 :=
        if ((fs.disk disk).inodes inum).blocks IND_BLOCK = 0 then
          let (b, fsa) := allocate_block fs disk
          set_inode_block fsa disk inum IND_BLOCK b
        else fs
      let base := ((fs1.disk disk).inodes inum).blocks IND_BLOCK
      let slotVal := readOff (fs1.disk disk).data (base + 8 * kk)
      let fs2 :=
        if alloc ∧ slotVal = 0 then
          let (nb, fsa) := allocate_block fs1 disk
          set_disk_data fsa disk (writeOff (fsa.disk disk).data (base + 8 * kk) nb)
        else fs1
      let v := readOff (fs2.disk disk).data
        (((fs2.disk disk).inodes inum).blocks IND_BLOCK + 8 * kk)
      if v = 0 then (none, fs2) else (some (disk, v + offset % BLOCK_SIZE), fs2)
    else
      let slotVal := ((fs.disk disk).inodes inum).blocks block_num
      let fs2 :=
        if alloc ∧ slotVal = 0 then
          let (nb, fsa) := allocate_block fs disk
          set_inode_block fsa disk inum block_num nb
        else fs
      let v := ((fs2.disk disk).inodes inum).blocks block_num
      if v = 0 then (none, fs2) else (some (disk, v + offset % BLOCK_SIZE), fs2)

/-! ## wfs.c: path resolution and directory entries -/

/-- locate_inode from wfs.c, with the path already split at the slashes.
For each component it walks the enclosing directory's dentry slots in
offset order (through the block resolver in the source, directly over the
modelled slot list here), skips free slots (num 0), and recurses into the
first name match; exhausting the slots is a miss. -/
def locate_inode (fs : FS) (disk : Nat) : Nat → List String → Option Nat
  | inum, [] => some inum
  | inum, comp :: rest =>
    match ((fs.disk disk).dirs inum).find? (fun e => e.num != 0 && e.name == comp) with
    | some e => locate_inode fs disk e.num rest
    | none => none

/-- find_inode_by_path from wfs.c: start at the root inode 0 (returning
an error without touching error_code when it is unallocated, as the
source does) and run locate_inode; on a miss the global error_code is set
to -ENOENT. -/
def find_inode_by_path (fs : FS) (path : List String) (disk : Nat) :
    Option Nat × FS :=
  match get_inode fs 0 disk with
  | none => (none, fs)
  | some _ =>
    match locate_inode fs disk 0 path with
    | some i => (some i, fs)
    | none => (none, { fs with errorCode := -ENOENT })

/-- The slot scan of insert_dir_entry: overwrite the first free slot
(num 0) with the new entry; none when no slot is free. -/
def fillFirstFree : List Dentry → Nat → String → Option (List Dentry)
  | [], _, _ => none
  | e :: rest, num, name =>
    if e.num = 0 then some ({ name := name, num := num } :: rest)
    else (fillFirstFree rest num name).map (e :: ·)

/-- The slot scan of delete_dir_entry: clear the inode-number field of
the first slot whose number matches, leaving its name and every other
slot in place; none when no slot matches. -/
def clearFirst : List Dentry → Nat → Option (List Dentry)
  | [], _ => none
  | e :: rest, inum =>
    if e.num = inum then some ({ e with num := 0 } :: rest)
    else (clearFirst rest inum).map (e :: ·)

/-- delete_dir_entry from wfs.c, acting on directory inode pnum of the
given disk: walk the slots, zero the inode-number field of the first
match, return 0; return -1 when no slot matches.  Nothing else — not the
name bytes, not the other slots, not the directory inode — is written. -/
def delete_dir_entry (fs : FS) (pnum inum disk : Nat) : Int × FS :=
  match clearFirst ((fs.disk disk).dirs pnum) inum with
  | some slots => (0, set_dir_slots fs disk pnum slots)
  | none => (-1, fs)

/-- The sixteen dentry slots of a freshly allocated directory block after
insert_dir_entry writes the new entry into the first of them (the
allocator does not zero, but every freed block is zeroed on release and
the remaining fifteen slots read as free). -/
def newBlockSlots (num : Nat) (name : String) : List Dentry :=
  { name := name, num := num } :: List.replicate 15 { name := "", num := 0 }

/-- The directory-content effect of insert_dir_entry from wfs.c, for one
disk (the non-RAID0 branch; under RAID0 the nlinks and size updates are
replayed on every disk).  State is the (nlinks, size, slots) triple of
the parent directory.  If a free slot exists it is overwritten and nlinks
is incremented; otherwise the resolver is asked to allocate a block at
offset size (canAlloc says whether that succeeded), the entry goes into
the new block's first slot, nlinks is incremented and size grows by
BLOCK_SIZE (not by one entry).  none models the -1 return on allocation
failure, which leaves the directory untouched. -/
def insertCore (nlinks size : Nat) (slots : List Dentry) (num : Nat)
    (name : String) (canAlloc : Bool) : Option (Nat × Nat × List Dentry) :=
  match fillFirstFree slots num name with
  | some slots => some (nlinks + 1, size, slots)
  | none =>
    if canAlloc then
      some (nlinks + 1, size + BLOCK_SIZE, slots ++ newBlockSlots num name)
    else none

/-! ## wfs.c: remove (wfs_unlink / wfs_rmdir) -/

/-- One round of the indirect-array free loop of wfs_unlink: read entry
i of the pointer array of the indirect block (from the current state, as
the C loop reads the mapped memory each iteration) and release a nonzero
entry on disk cur (current_disk — disk 0 in the single RAID0 round). -/
def indStep (inum cur : Nat) (acc : FS) (i : Nat) : FS :=
  let b := readOff (acc.disk cur).data
    (((acc.disk cur).inodes inum).blocks IND_BLOCK + 8 * i)
  if b ≠ 0 then release_block acc b cur else acc

/-- One round of the block-pointer-table free loop of wfs_unlink:
release a nonzero slot i on disk (i mod total_devices) under RAID0 and
on disk cur otherwise. -/
def dirStep (inum cur : Nat) (acc : FS) (i : Nat) : FS :=
  let bi := ((acc.disk cur).inodes inum).blocks i
  if bi ≠ 0 then
    release_block acc bi
      (if acc.raidMode = RAID0 then i % acc.disks.length else cur)
  else acc

/-- One DELETE_READY round of the wfs_unlink state machine, on disk cur:
resolve the parent (dirname) and the target, free every nonzero entry of
the indirect block's pointer array on disk cur (current_disk, which is 0
when the single RAID0 round runs), free every nonzero slot of the block
pointer table — on disk (slot index mod total_devices) under RAID0, on
disk cur otherwise — clear the parent's directory entry, and release the
inode (on every disk under RAID0).  A some result is an early return of
the whole operation with that value (the error_code at that point). -/
def unlinkPass (fs0 : FS) (path : List String) (cur : Nat) : Option Int × FS :=
  match find_inode_by_path fs0 path.dropLast cur with
  | (none, fs1) => (some fs1.errorCode, fs1)
  | (some pnum, fs1) =>
    match find_inode_by_path fs1 path cur with
    | (none, fs2) => (some fs2.errorCode, fs2)
    | (some inum, fs2) =>
      let fs3 :=
        if ((fs2.disk cur).inodes inum).blocks IND_BLOCK ≠ 0 then
          (List.range (BLOCK_SIZE / 8)).foldl (indStep inum cur) fs2
        else fs2
      let fs4 := (List.range N_BLOCKS).foldl (dirStep inum cur) fs3
      match delete_dir_entry fs4 pnum inum cur with
      | (dr, fs5) =>
        if dr < 0 then (some fs5.errorCode, fs5)
        else
          let fs6 :=
            if fs5.raidMode = RAID0 then
              (List.range fs5.disks.length).foldl
                (fun acc i => release_inode acc inum i) fs5
            else release_inode fs5 inum cur
          (none, fs6)

/-- The disk loop of wfs_unlink: starting at current_disk = 0, run the
DELETE_READY round; an early result returns it, and otherwise the loop
returns 0 after the single RAID0 round or after the last disk.  Fuel is
the number of disks, which bounds the rounds. -/
def unlinkLoop (path : List String) : Nat → Nat → FS → Int × FS
  | 0, _, fs => (0, fs)
  | fuel + 1, cur, fs =>
    match unlinkPass fs path cur with
    | (some r, fs1) => (r, fs1)
    | (none, fs1) =>
      if fs1.raidMode = RAID0 ∨ cur = fs1.disks.length - 1 then (0, fs1)
      else unlinkLoop path fuel (cur + 1) fs1

/-- wfs_unlink from wfs.c (wfs_rmdir is the same function). -/
def wfs_unlink (fs : FS) (path : List String) : Int × FS :=
  unlinkLoop path fs.disks.length 0 fs

/-! ## wfs.c: read (wfs_read) with RAID1V voting -/

/-- 32-bit two's-complement wraparound of a C int addition result. -/
def wrap32 (x : Int) : Int := (x + 2 ^ 31) % 2 ^ 32 - 2 ^ 31

/-- The value of a data byte read through a char pointer: bytes 128..255
read as negative signed chars. -/
def sbyte (v : Nat) : Int :=
  if v % 256 < 128 then (v % 256 : Nat) else (v % 256 : Nat) - 256

/-- The byte of the file of inode inum (on the given disk) at file
position p, as the read and checksum loops obtain it: resolve the
position with alloc clear and load the byte at the returned address.  A
NULL resolution yields 0 here (the C code would fault; every theorem
below stays within resolvable positions).  The discarded state component
is unchanged whenever the indirect block already exists. -/
def fileByte (fs : FS) (disk inum : Nat) (p : Nat) : Int :=
  match (get_block_location fs inum p false disk).1 with
  | some (dk, a) => sbyte ((fs.disk dk).data a)
  | none => 0

/-- The inner byte loop of the RAID1V checksum pass:
checksum += addr[i] for i < len, with int wraparound. -/
def sumRange (f : Nat → Int) (pos : Nat) : Nat → Int → Int
  | 0, acc => acc
  | n + 1, acc => sumRange f (pos + 1) n (wrap32 (acc + f pos))

/-- The INIT-state checksum loop of wfs_read for one disk: while
bytes_read < length and position < size, advance by
min(BLOCK_SIZE - position % BLOCK_SIZE, size - position) — note the
length clamp of the read loop is absent here — summing the bytes.  The
fuel is the requested length; each round advances bytes_read by at least
one, so the guard fails before the fuel can run out. -/
def checksumLoop (f : Nat → Int) (size length : Nat) :
    Nat → Nat → Nat → Int → Int
  | 0, _, _, acc => acc
  | fuel + 1, pos, bytesRead, acc =>
    if bytesRead < length ∧ pos < size then
      let toRead := min (BLOCK_SIZE - pos % BLOCK_SIZE) (size - pos)
      checksumLoop f size length fuel (pos + toRead) (bytesRead + toRead)
        (sumRange f pos toRead acc)
    else acc

/-- The checksum wfs_read computes for one disk: resolve the path on that
disk and run the checksum loop over the file bytes from the requested
offset.  For a disk where resolution fails the C code leaves the
checksum slot uninitialized and moves on; the model writes 0 there, and
every theorem below assumes resolution succeeds on all disks. -/
def diskChecksum (fs : FS) (path : List String) (offset length : Nat)
    (d : Nat) : Int :=
  match (find_inode_by_path fs path d).1 with
  | none => 0
  | some inum =>
    checksumLoop (fileByte fs d inum) ((fs.disk d).inodes inum).size
      length length offset 0 0

/-- Count of earlier disks whose checksum equals disk d's checksum: the
inner j-loop of the voting pass (the +1 for d itself is added at the
use site, as in the source). -/
def cntBelow (f : Nat → Int) (d : Nat) : Nat :=
  (List.range d).countP (fun j => f j == f d)

/-- The voting loop of wfs_read: for each disk d in order, count = 1 +
(number of earlier disks with an equal checksum); when count exceeds the
running maximum (initially -1), d becomes the best disk.  Fuel is the
number of disks left to visit. -/
def voteAux (f : Nat → Int) : Nat → Nat → Nat → Int → Nat
  | 0, _, best, _ => best
  | fuel + 1, d, best, maxc =>
    let cnt : Int := 1 + cntBelow f d
    if maxc < cnt then voteAux f fuel (d + 1) d cnt
    else voteAux f fuel (d + 1) best maxc

/-- The winning disk of the RAID1V vote over D disks. -/
def bestDisk (f : Nat → Int) (D : Nat) : Nat := voteAux f D 0 0 (-1)

/-- The bytes memcpy-ed by one round of the READ_READY loop. -/
def collectBytes (f : Nat → Int) (pos n : Nat) : List Int :=
  (List.range n).map (fun i => f (pos + i))

/-- The READ_READY loop of wfs_read: while bytes_read < length and
position < size, copy min(BLOCK_SIZE - position % BLOCK_SIZE,
size - position, length - bytes_read) bytes into the buffer.  Fuel as in
checksumLoop. -/
def readLoopBytes (f : Nat → Int) (size length : Nat) :
    Nat → Nat → Nat → List Int → List Int
  | 0, _, _, acc => acc
  | fuel + 1, pos, bytesRead, acc =>
    if bytesRead < length ∧ pos < size then
      let toRead := min (min (BLOCK_SIZE - pos % BLOCK_SIZE) (size - pos))
        (length - bytesRead)
      readLoopBytes f size length fuel (pos + toRead) (bytesRead + toRead)
        (acc ++ collectBytes f pos toRead)
    else acc

/-- The READ_READY state served from one disk: resolve the path there and
run the copy loop; none models the error return when resolution fails. -/
def readPass (fs : FS) (d : Nat) (path : List String) (offset length : Nat) :
    Option (List Int) :=
  match (find_inode_by_path fs path d).1 with
  | none => none
  | some inum =>
    some (readLoopBytes (fileByte fs d inum) ((fs.disk d).inodes inum).size
      length length offset 0 [])

/-- wfs_read from wfs.c, returning the buffer contents: under RAID1V the
checksum pass visits every disk, the vote picks the best disk, and the
READ_READY pass serves from it; under RAID0/RAID1 the READ_READY pass
serves from disk 0 directly. -/
def wfs_read (fs : FS) (path : List String) (offset length : Nat) :
    Option (List Int) :=
  if fs.raidMode = RAID1V then
    readPass fs (bestDisk (diskChecksum fs path offset length) fs.disks.length)
      path offset length
  else
    readPass fs 0 path offset length

/-! ## wfs.c: write (wfs_write) -/

/-- memcpy of the caller's bytes into the resolved address: bytes
buf srcOff .. buf (srcOff+len-1) land at absolute offsets a .. a+len-1 of
disk dk's byte map. -/
def memcpyIn (fs : FS) (dk a : Nat) (buf : Nat → Nat) (srcOff len : Nat) : FS :=
  let disk := fs.disk dk
  fs.setDisk dk
    { disk with data := fun p =>
        if a ≤ p ∧ p < a + len then buf (srcOff + (p - a)) else disk.data p }

/-- The chunk loop of wfs_write on one disk: while written < length,
resolve the position with alloc set; a NULL address aborts the loop with
false (wfs_write then returns the prevailing error_code); otherwise copy
min(BLOCK_SIZE - position % BLOCK_SIZE, length - written) bytes and
continue.  Fuel is the requested length, as in checksumLoop. -/
def writeChunks (inum d : Nat) (buf : Nat → Nat) (length : Nat) :
    Nat → Nat → Nat → FS → Bool × FS
  | 0, _, _, fs => (true, fs)
  | fuel + 1, pos, written, fs =>
    if written < length then
      let toWrite := min (BLOCK_SIZE - pos % BLOCK_SIZE) (length - written)
      match get_block_location fs inum pos true d with
      | (none, fs1) => (false, fs1)
      | (some (dk, a), fs1) =>
        writeChunks inum d buf length fuel (pos + toWrite) (written + toWrite)
          (memcpyIn fs1 dk a buf written toWrite)
    else (true, fs)

/-- One disk's round of wfs_write (WRITE_READY then the write loop):
resolve the path (an error returns the error_code after the failed
lookup), remember new_data_len = length - (size - offset) as a signed
quantity, run the chunk loop (an aborted loop returns the prevailing
error_code, with no size update), and finally grow the size by
new_data_len when positive — on this disk, and on every disk under
RAID0. -/
def writePass (fs0 : FS) (path : List String) (buf : Nat → Nat)
    (offset length : Nat) (d : Nat) : Option Int × FS :=
  match find_inode_by_path fs0 path d with
  | (none, fs1) => (some fs1.errorCode, fs1)
  | (some inum, fs1) =>
    let sz := ((fs1.disk d).inodes inum).size
    let newDataLen : Int := (length : Int) - ((sz : Int) - (offset : Int))
    match writeChunks inum d buf length length offset 0 fs1 with
    | (false, fs2) => (some fs2.errorCode, fs2)
    | (true, fs2) =>
      let newSize := ((sz : Int) + newDataLen).toNat
      let fs3 :=
        if 0 < newDataLen then
          let fsu := set_inode_size fs2 d inum newSize
          if fsu.raidMode = RAID0 then
            (List.range fsu.disks.length).foldl
              (fun acc i => set_inode_size acc i inum newSize) fsu
          else fsu
        else fs2
      (none, fs3)

/-- The disk loop of wfs_write: rounds run on disks 0, 1, ... ; an early
result is returned as is, and otherwise the loop returns written_bytes
(= length) after the single RAID0 round or after the last disk. -/
def writeLoopDisks (path : List String) (buf : Nat → Nat)
    (offset length : Nat) : Nat → Nat → FS → Int × FS
  | 0, _, fs => (0, fs)
  | fuel + 1, cur, fs =>
    match writePass fs path buf offset length cur with
    | (some r, fs1) => (r, fs1)
    | (none, fs1) =>
      if fs1.raidMode = RAID0 ∨ cur = fs1.disks.length - 1 then
        ((length : Int), fs1)
      else writeLoopDisks path buf offset length fuel (cur + 1) fs1

/-- wfs_write from wfs.c. -/
def wfs_write (fs : FS) (path : List String) (buf : Nat → Nat)
    (offset length : Nat) : Int × FS :=
  writeLoopDisks path buf offset length fs.disks.length 0 fs

/-! ## The per-directory entry transition system

The link-count claim quantifies over reachable states.  The state of one
directory, as touched by insert_dir_entry and delete_dir_entry, is its
link count, its size and its dentry slots; the transition system below
applies exactly those two operations (for mirroring modes; under RAID0
the same nlinks and size updates are replayed on every disk's copy of the
inode). -/

/-- The portion of a directory inode and its data blocks that the entry
operations read and write. -/
structure DirNode where
  nlinks : Nat
  size : Nat
  slots : List Dentry
  deriving Repr, DecidableEq

/-- The root directory as mkfs creates it: link count 1, size 0, no
entry slots. -/
def rootDirNode : DirNode := ⟨1, 0, []⟩

/-- insert_dir_entry acting on one directory (see insertCore); canAlloc
tells whether the block resolver could allocate the growth block. -/
def dirInsert (s : DirNode) (num : Nat) (name : String) (canAlloc : Bool) :
    Option DirNode :=
  (insertCore s.nlinks s.size s.slots num name canAlloc).map
    (fun t => ⟨t.1, t.2.1, t.2.2⟩)

/-- delete_dir_entry acting on one directory: clear the first matching
slot's inode number; a miss (the -1 return) leaves the state unchanged. -/
def dirDelete (s : DirNode) (inum : Nat) : DirNode :=
  match clearFirst s.slots inum with
  | some sl => { s with slots := sl }
  | none => s

/-- Number of occupied slots (nonzero inode number): the children whose
directory entry points into the directory. -/
def usedCount (slots : List Dentry) : Nat :=
  (slots.filter (fun e => e.num != 0)).length

/-- The claimed link-count invariant: nlinks equals 1 plus the number of
children. -/
def dirInv (s : DirNode) : Prop := s.nlinks = 1 + usedCount s.slots

/-- Directory states reachable from the freshly formatted root by
successful entry insertions (of nonzero inode numbers, as produced by
create) and entry deletions. -/
inductive DirReachable : DirNode → Prop
  | init : DirReachable rootDirNode
  | insert {s s' : DirNode} {num : Nat} {name : String} {ca : Bool}
      (h : DirReachable s) (hnum : num ≠ 0)
      (hins : dirInsert s num name ca = some s') : DirReachable s'
  | delete {s : DirNode} (inum : Nat) (h : DirReachable s) :
      DirReachable (dirDelete s inum)

/-- Directory states reachable by insertions alone. -/
inductive DirReachableIns : DirNode → Prop
  | init : DirReachableIns rootDirNode
  | insert {s s' : DirNode} {num : Nat} {name : String} {ca : Bool}
      (h : DirReachableIns s) (hnum : num ≠ 0)
      (hins : dirInsert s num name ca = some s') : DirReachableIns s'

/-! ## Concrete volumes used by the counterexamples and witnesses

All of them use the geometry a 32-inode, 32-data-block format produces:
superblock 64 bytes, inode bitmap at 64, data bitmap at 68, inode region
at 512 (the next block boundary), data region at 512 + 32*512 = 16896.
Data block index j starts at byte 16896 + 512*j. -/

/-- The standard superblock of those volumes (rm is the RAID mode). -/
def sbStd (rm : Nat) : SB := ⟨32, 32, 64, 68, 512, 16896, 1, rm, 0⟩

/-- A root directory inode: one data block, link count 2 (itself plus
one child), size one block. -/
def rootInodeStd : Inode :=
  ⟨0, 16877, 0, 0, 512, 2, 0, 0, 0, fun i => if i = 0 then 16896 else 0⟩

/-- Root dentry slots: one child named f with inode 1, fifteen free
slots. -/
def rootSlots : List Dentry :=
  { name := "f", num := 1 } :: List.replicate 15 { name := "", num := 0 }

/-- A disk with the root directory, a one-block file f (inode 1, data
block 1), a file with an indirect block (inode 2, indirect block at data
block 2 whose slot 0 holds 18432 = data block 3 and whose other slots are
zero), and an allocated dummy inode 3 with no blocks. -/
def dkA : Disk :=
  { sb := sbStd 1
    iBitmap := fun n => n < 4
    dBitmap := fun n => n < 3
    inodes := fun n =>
      if n = 0 then rootInodeStd
      else if n = 1 then
        ⟨1, 33188, 0, 0, 512, 1, 0, 0, 0, fun i => if i = 0 then 17408 else 0⟩
      else if n = 2 then
        ⟨2, 33188, 0, 0, 4096, 1, 0, 0, 0, fun i => if i = 7 then 17920 else 0⟩
      else if n = 3 then ⟨3, 33188, 0, 0, 0, 1, 0, 0, 0, fun _ => 0⟩
      else zeroInode
    data := fun p => if p = 17921 then 72 else 0
    dirs := fun n => if n = 0 then rootSlots else [] }

/-- A two-disk RAID1 volume over dkA. -/
def fsC1 : FS := ⟨[dkA, dkA], RAID1, 0⟩

/-- A one-disk RAID1 view of dkA (the resolver works per disk). -/
def fsR1 : FS := ⟨[dkA], RAID1, 0⟩

/-- A two-disk RAID0 volume over dkA. -/
def fsC4 : FS := ⟨[dkA, dkA], RAID0, 0⟩

/-- A disk whose data bitmap is completely full, with a file f of size
512 owning data blocks 1 and 2 (offsets 17408 and 17920). -/
def dkC5 : Disk :=
  { sb := sbStd 1
    iBitmap := fun n => n < 2
    dBitmap := fun _ => true
    inodes := fun n =>
      if n = 0 then rootInodeStd
      else if n = 1 then
        ⟨1, 33188, 0, 0, 512, 1, 0, 0, 0,
          fun i => if i = 0 then 17408 else if i = 1 then 17920 else 0⟩
      else zeroInode
    data := fun _ => 0
    dirs := fun n => if n = 0 then rootSlots else [] }

/-- A full two-disk RAID1 volume whose global error_code still holds a
stale -ENOENT from an earlier failed lookup. -/
def fsC5 : FS := ⟨[dkC5, dkC5], RAID1, -ENOENT⟩

/-- A RAID1V disk holding a one-byte file f at data block 1; the byte is
1 when corrupt is set and 0 otherwise. -/
def dkV (corrupt : Bool) : Disk :=
  { sb := sbStd 2
    iBitmap := fun n => n < 2
    dBitmap := fun n => n < 2
    inodes := fun n =>
      if n = 0 then rootInodeStd
      else if n = 1 then
        ⟨1, 33188, 0, 0, 1, 1, 0, 0, 0, fun i => if i = 0 then 17408 else 0⟩
      else zeroInode
    data := fun p => if p = 17408 then (if corrupt then 1 else 0) else 0
    dirs := fun n => if n = 0 then rootSlots else [] }

/-- Two-disk RAID1V volume with disk 0 corrupted. -/
def fsC2 : FS := ⟨[dkV true, dkV false], RAID1V, 0⟩

/-- Three-disk RAID1V volume with disk 0 corrupted. -/
def fsW2 : FS := ⟨[dkV true, dkV false, dkV false], RAID1V, 0⟩

/-- RAID0 disk 0: root directory with a child g (inode 1) whose indirect
pointer (slot 7) holds data block 0 (offset 16896); the indirect array's
slot 0 holds 17408 (data block 1, logical block 7, owned by disk
7 mod 2 = 1) and its other slots are zero.  Only data-bitmap bit 0 (the
indirect block itself) is set here. -/
def dk3a : Disk :=
  { sb := sbStd 0
    iBitmap := fun n => n < 2
    dBitmap := fun n => n = 0
    inodes := fun n =>
      if n = 0 then rootInodeStd
      else if n = 1 then
        ⟨1, 33188, 0, 0, 4096, 1, 0, 0, 0, fun i => if i = 7 then 16896 else 0⟩
      else zeroInode
    data := fun p => if p = 16897 then 68 else 0
    dirs := fun n => if n = 0 then
      { name := "g", num := 1 } :: List.replicate 15 { name := "", num := 0 }
    else [] }

/-- RAID0 disk 1: holds logical block 7 of the file (data block 1,
bitmap bit 1 set). -/
def dk3b : Disk :=
  { sb := sbStd 0
    iBitmap := fun n => n < 2
    dBitmap := fun n => n = 1
    inodes := fun n =>
      if n = 0 then rootInodeStd
      else if n = 1 then
        ⟨1, 33188, 0, 0, 4096, 1, 0, 0, 0, fun i => if i = 7 then 16896 else 0⟩
      else zeroInode
    data := fun _ => 0
    dirs := fun _ => [] }

/-- The two-disk RAID0 volume of the striping counterexample. -/
def fsC3 : FS := ⟨[dk3a, dk3b], RAID0, 0⟩

/-! ## Statement abbreviations for the larger claims -/

/-- Layout facts for inode count I and data-block count B: both counts
are rounded up to the next multiple of 32, and the rounded layout places
the regions in order with the inode region block-aligned (no pad when
already aligned) and the data region immediately after I*BLOCK_SIZE
inode bytes. -/
def C9Prop (I B : Nat) : Prop :=
  get_aligned_size I % 32 = 0 ∧ I ≤ get_aligned_size I ∧
  get_aligned_size I < I + 32 ∧
  get_aligned_size B % 32 = 0 ∧ B ≤ get_aligned_size B ∧
  get_aligned_size B < B + 32 ∧
  (calculate_layout (get_aligned_size I) (get_aligned_size B)).i_bitmap_ptr = sizeofSB ∧
  (calculate_layout (get_aligned_size I) (get_aligned_size B)).d_bitmap_ptr
    = sizeofSB + (get_aligned_size I + 7) / 8 ∧
  (calculate_layout (get_aligned_size I) (get_aligned_size B)).i_blocks_ptr % BLOCK_SIZE = 0 ∧
  sizeofSB + (get_aligned_size I + 7) / 8 + (get_aligned_size B + 7) / 8
    ≤ (calculate_layout (get_aligned_size I) (get_aligned_size B)).i_blocks_ptr ∧
  (calculate_layout (get_aligned_size I) (get_aligned_size B)).i_blocks_ptr
    < sizeofSB + (get_aligned_size I + 7) / 8 + (get_aligned_size B + 7) / 8 + BLOCK_SIZE ∧
  ((sizeofSB + (get_aligned_size I + 7) / 8 + (get_aligned_size B + 7) / 8) % BLOCK_SIZE = 0 →
    (calculate_layout (get_aligned_size I) (get_aligned_size B)).i_blocks_ptr
      = sizeofSB + (get_aligned_size I + 7) / 8 + (get_aligned_size B + 7) / 8) ∧
  (calculate_layout (get_aligned_size I) (get_aligned_size B)).d_blocks_ptr
    = (calculate_layout (get_aligned_size I) (get_aligned_size B)).i_blocks_ptr
      + get_aligned_size I * BLOCK_SIZE ∧
  (calculate_layout (get_aligned_size I) (get_aligned_size B)).total
    = (calculate_layout (get_aligned_size I) (get_aligned_size B)).d_blocks_ptr
      + get_aligned_size B * BLOCK_SIZE

/-- What delete_dir_entry does when the inode number is present: the
slots split as pre ++ matched ++ post with no match in pre, the call
succeeds, only the matched slot's number field changes (to 0, its name
kept), and the inode records, the other directories of the disk, the
other disks, the bitmaps and the data bytes are all untouched. -/
def C10Concl (fs : FS) (pnum inum disk : Nat) : Prop :=
  ∃ pre e post,
    (fs.disk disk).dirs pnum = pre ++ e :: post ∧ e.num = inum ∧
    (∀ x ∈ pre, x.num ≠ inum) ∧
    (delete_dir_entry fs pnum inum disk).1 = 0 ∧
    (((delete_dir_entry fs pnum inum disk).2.disk disk).dirs pnum
      = pre ++ { name := e.name, num := 0 } :: post) ∧
    (∀ i, ((delete_dir_entry fs pnum inum disk).2.disk i).inodes = (fs.disk i).inodes) ∧
    (∀ i, i ≠ disk → (delete_dir_entry fs pnum inum disk).2.disk i = fs.disk i) ∧
    (∀ q, q ≠ pnum →
      ((delete_dir_entry fs pnum inum disk).2.disk disk).dirs q = (fs.disk disk).dirs q) ∧
    (((delete_dir_entry fs pnum inum disk).2.disk disk).iBitmap = (fs.disk disk).iBitmap) ∧
    (((delete_dir_entry fs pnum inum disk).2.disk disk).dBitmap = (fs.disk disk).dBitmap) ∧
    (((delete_dir_entry fs pnum inum disk).2.disk disk).data = (fs.disk disk).data) ∧
    (((delete_dir_entry fs pnum inum disk).2.disk disk).sb = (fs.disk disk).sb)

/-- RAID0 placement and release routing for the file of inode inum:
every in-range logical block resolves to an address on disk
(k mod total_devices); after remove, the data-bitmap bit of every block
listed in the indirect array is cleared on disk 0 (where the code
releases them), and the bit of every block-pointer-table slot i is
cleared on disk (i mod total_devices). -/
def C3Concl (fs : FS) (path : List String) (inum : Nat) : Prop :=
  (∀ offset (alloc : Bool) d, offset / BLOCK_SIZE ≤ 70 →
    ∃ a, (get_block_location fs inum offset alloc d).1
      = some (offset / BLOCK_SIZE % fs.disks.length, a)) ∧
  (∀ j, j < BLOCK_SIZE / 8 → ((fs.disk 0).inodes inum).blocks IND_BLOCK ≠ 0 →
    readOff (fs.disk 0).data (((fs.disk 0).inodes inum).blocks IND_BLOCK + 8 * j) ≠ 0 →
    (((wfs_unlink fs path).2).disk 0).dBitmap
      ((readOff (fs.disk 0).data (((fs.disk 0).inodes inum).blocks IND_BLOCK + 8 * j)
        - (fs.disk 0).sb.d_blocks_ptr) / BLOCK_SIZE) = false) ∧
  (∀ i, i < N_BLOCKS → ((fs.disk 0).inodes inum).blocks i ≠ 0 →
    (((wfs_unlink fs path).2).disk (i % fs.disks.length)).dBitmap
      ((((fs.disk 0).inodes inum).blocks i
        - (fs.disk (i % fs.disks.length)).sb.d_blocks_ptr) / BLOCK_SIZE) = false)

/-- Block-resolution indexing: any offset whose logical block index
exceeds 70 fails to resolve in every mode; under the mirroring modes a
direct index k ≤ 6 with a nonzero slot resolves to
blocks[k] + offset mod BLOCK_SIZE on the same disk, and an indirect index
7 ≤ k ≤ 70 with the indirect block present and a nonzero slot (k - 7)
resolves to that slot's value + offset mod BLOCK_SIZE. -/
def C8Concl (fs : FS) (inum offset : Nat) (alloc : Bool) (d : Nat) : Prop :=
  (offset / BLOCK_SIZE > 70 → (get_block_location fs inum offset alloc d).1 = none) ∧
  (fs.raidMode ≠ RAID0 → offset / BLOCK_SIZE ≤ D_BLOCK →
    ((fs.disk d).inodes inum).blocks (offset / BLOCK_SIZE) ≠ 0 →
    (get_block_location fs inum offset alloc d).1
      = some (d, ((fs.disk d).inodes inum).blocks (offset / BLOCK_SIZE)
          + offset % BLOCK_SIZE)) ∧
  (fs.raidMode ≠ RAID0 → D_BLOCK < offset / BLOCK_SIZE → offset / BLOCK_SIZE ≤ 70 →
    ((fs.disk d).inodes inum).blocks IND_BLOCK ≠ 0 →
    readOff (fs.disk d).data (((fs.disk d).inodes inum).blocks IND_BLOCK
      + 8 * (offset / BLOCK_SIZE - IND_BLOCK)) ≠ 0 →
    (get_block_location fs inum offset alloc d).1
      = some (d, readOff (fs.disk d).data (((fs.disk d).inodes inum).blocks IND_BLOCK
          + 8 * (offset / BLOCK_SIZE - IND_BLOCK)) + offset % BLOCK_SIZE))

/-- Outcome of wfs_write when the path resolves on every disk: either
the full requested length is reported written, or the operation stops
early and reports the prevailing global error code — unchanged, so no
"no space" is set — leaving the inode size on some disk (the failing
one) untouched. -/
def C5Concl (fs : FS) (path : List String) (buf : Nat → Nat)
    (offset length inum : Nat) : Prop :=
  (wfs_write fs path buf offset length).1 = (length : Int) ∨
  ((wfs_write fs path buf offset length).1 = fs.errorCode ∧
    (wfs_write fs path buf offset length).2.errorCode = fs.errorCode ∧
    ∃ t, t < fs.disks.length ∧
      (((wfs_write fs path buf offset length).2.disk t).inodes inum).size
        = ((fs.disk t).inodes inum).size)

/-- Everything the write chunk loop leaves untouched: the RAID mode,
the global error code, the disk count, the directory contents, the inode
bitmaps, the inode sizes, and the superblocks (the loop only allocates
data-bitmap bits, stores block pointers and copies data bytes). -/
def MetaEq (a b : FS) : Prop :=
  b.raidMode = a.raidMode ∧ b.errorCode = a.errorCode ∧
  b.disks.length = a.disks.length ∧
  (∀ i, (b.disk i).dirs = (a.disk i).dirs) ∧
  (∀ i, (b.disk i).iBitmap = (a.disk i).iBitmap) ∧
  (∀ i n, ((b.disk i).inodes n).size = ((a.disk i).inodes n).size) ∧
  (∀ i, (b.disk i).sb = (a.disk i).sb)

/-! ## Basic state lemmas -/

theorem length_setDisk (fs : FS) (d : Nat) (dk : Disk) :
    (fs.setDisk d dk).disks.length = fs.disks.length := by
  simp [FS.setDisk]

theorem raidMode_setDisk (fs : FS) (d : Nat) (dk : Disk) :
    (fs.setDisk d dk).raidMode = fs.raidMode := rfl

theorem errorCode_setDisk (fs : FS) (d : Nat) (dk : Disk) :
    (fs.setDisk d dk).errorCode = fs.errorCode := rfl

theorem disk_setDisk (fs : FS) (d : Nat) (dk : Disk) (i : Nat) :
    (fs.setDisk d dk).disk i = if i = d ∧ d < fs.disks.length then dk else fs.disk i := by
  unfold FS.disk FS.setDisk
  by_cases hi : i = d ∧ d < fs.disks.length
  · obtain ⟨rfl, hd⟩ := hi
    rw [if_pos ⟨rfl, hd⟩, List.getD_eq_getElem _ _ (by simpa using hd)]
    simp
  · rw [if_neg hi]
    by_cases hid : i = d
    · subst hid
      have hd : fs.disks.length ≤ i := by
        rcases Nat.lt_or_ge i fs.disks.length with h | h
        · exact absurd ⟨rfl, h⟩ hi
        · exact h
      rw [List.getD_eq_default _ _ (by simpa using hd), List.getD_eq_default _ _ hd]
    · by_cases hilt : i < fs.disks.length
      · rw [List.getD_eq_getElem _ _ (by simpa using hilt),
          List.getD_eq_getElem _ _ hilt]
        exact List.getElem_set_ne (fun h => hid h.symm) _
      · have h1 : fs.disks.length ≤ i := Nat.le_of_not_lt hilt
        rw [List.getD_eq_default _ _ (by simpa using h1), List.getD_eq_default _ _ h1]

/-! ## C6: mkfs -r mode validation -/

/-- C6 counterexample: the initializer rejects -r 2 with exit code 1,
although the claim says mode 2 (mirroring with voting) is accepted. -/
theorem C6_cex : mkfs_raid_check 2 = .error 1 ∧ mkfs_raid_check 2 ≠ .ok 2 := by
  refine ⟨rfl, fun h => ?_⟩
  exact Except.noConfusion h

/-- C6 (amended): the initializer accepts -r mode values 0 and 1 only,
and rejects any other value — mode 2 included — exiting with code 1. -/
theorem C6_amended : ∀ m : Int,
    (mkfs_raid_check m = .ok m ↔ m = 0 ∨ m = 1) ∧
    (m ≠ 0 → m ≠ 1 → mkfs_raid_check m = .error 1) := by
  intro m
  unfold mkfs_raid_check
  constructor
  · split_ifs with h
    · constructor
      · intro hc
        exact absurd hc (by simp)
      · intro hc
        rcases hc with rfl | rfl
        · exact absurd rfl h.1
        · exact absurd rfl h.2
    · constructor
      · intro _
        rcases not_and_or.mp h with h0 | h1
        · exact Or.inl (not_not.mp h0)
        · exact Or.inr (not_not.mp h1)
      · intro _
        rfl
  · intro h0 h1
    rw [if_pos ⟨h0, h1⟩]

/-- C6 witness: mode 1 is accepted and mode 5 is rejected with exit
code 1. -/
theorem C6_amended_witness :
    mkfs_raid_check 1 = .ok 1 ∧ mkfs_raid_check 5 = .error 1 :=
  ⟨(C6_amended 1).1.mpr (Or.inr rfl), (C6_amended 5).2 (by decide) (by decide)⟩

/-! ## C9: mkfs layout -/

/-- C9: for every inode count I and data-block count B accepted by the
initializer (both positive), I and B are rounded up to multiples of 32
and the computed layout places the superblock at 0, the inode bitmap at
sizeof(superblock), the data bitmap immediately after, the inode region
at the next BLOCK_SIZE boundary (no pad when aligned), and the data
region immediately after the I*BLOCK_SIZE inode region. -/
theorem C9_layout (I B : Nat) (hI : 0 < I) (hB : 0 < B) : C9Prop I B := by
  unfold C9Prop calculate_layout get_aligned_size sizeofSB BLOCK_SIZE
  dsimp only
  split_ifs <;> omega

/-- C9 witness: the layout facts hold at I = 33, B = 1. -/
theorem C9_layout_witness : C9Prop 33 1 :=
  C9_layout 33 1 (by decide) (by decide)

/-! ## C1: remove zeroes the inode but clears the wrong bitmap bit -/

set_option maxRecDepth 1000000
set_option maxHeartbeats 1000000

/-- C1 (code bug): removing file /f (inode 1) on a two-disk RAID1 volume
with i_blocks_ptr = 512 returns success and zeroes the inode record, the
freed data block and its data-bitmap bit, but the removed inode's own
inode-bitmap bit 1 stays set while the unrelated bit
1 + 2 * (i_blocks_ptr / BLOCK_SIZE) = 3 — inode 3's bit — is cleared
instead: release_inode adds i_blocks_ptr where it should subtract it. -/
theorem C1_bug_eval :
    (wfs_unlink fsC1 ["f"]).1 = 0 ∧
    fsC1.disks.length = 2 ∧
    (fsC1.disk 0).iBitmap 1 = true ∧
    (fsC1.disk 0).iBitmap 3 = true ∧
    (((wfs_unlink fsC1 ["f"]).2).disk 0).iBitmap 1 = true ∧
    (((wfs_unlink fsC1 ["f"]).2).disk 0).iBitmap 3 = false ∧
    (((wfs_unlink fsC1 ["f"]).2).disk 0).dBitmap 1 = false ∧
    ((((wfs_unlink fsC1 ["f"]).2).disk 0).inodes 1).nlinks = 0 ∧
    ((((wfs_unlink fsC1 ["f"]).2).disk 0).inodes 1).blocks 0 = 0 ∧
    (((wfs_unlink fsC1 ["f"]).2).disk 0).data 17408 = 0 ∧
    (((wfs_unlink fsC1 ["f"]).2).disk 0).data 17919 = 0 ∧
    (((wfs_unlink fsC1 ["f"]).2).disk 1).iBitmap 1 = true := by
  decide

/-! ## C2, C3, C4, C5, C7, C8: counterexamples -/

/-- C2 counterexample: on a two-disk RAID1V volume where exactly one
disk's copy (disk 0) of the one-byte file f is corrupted (byte 1 instead
of 0), the vote picks disk 0 and read returns the corrupted byte, not
the uncorrupted content served by disk 1. -/
theorem C2_cex :
    wfs_read fsC2 ["f"] 0 1 = some [1] ∧
    readPass fsC2 1 ["f"] 0 1 = some [0] ∧
    wfs_read fsC2 ["f"] 0 1 ≠ readPass fsC2 1 ["f"] 0 1 := by
  decide

/-- C3 counterexample: on the two-disk RAID0 volume fsC3, logical block
7 of file g lives in data block 1 of its owning disk 7 mod 2 = 1 (bitmap
bit 1 set on disk 1); removing g leaves that bit set on disk 1 and
instead clears bit 1 on disk 0 — the indirect-listed block is released
on disk 0, not on its owning disk. -/
theorem C3_cex :
    readOff (fsC3.disk 0).data (((fsC3.disk 0).inodes 1).blocks IND_BLOCK) = 17408 ∧
    (17408 - (fsC3.disk 1).sb.d_blocks_ptr) / BLOCK_SIZE = 1 ∧
    7 % fsC3.disks.length = 1 ∧
    (fsC3.disk 1).dBitmap 1 = true ∧
    (((wfs_unlink fsC3 ["g"]).2).disk 1).dBitmap 1 = true ∧
    (((wfs_unlink fsC3 ["g"]).2).disk 0).dBitmap 1 = false := by
  decide

/-- C4 counterexample: under RAID0, with the allocate flag clear and the
resolved direct slot 0, the resolver does not return absent: it returns
the address 0 + offset mod BLOCK_SIZE on the target disk. -/
theorem C4_cex :
    fsC4.raidMode = RAID0 ∧
    ((fsC4.disk 0).inodes 3).blocks 0 = 0 ∧
    (get_block_location fsC4 3 0 false 0).1 = some (0, 0) := by
  decide

/-- C5 counterexample: writing 1024 bytes at offset 512 to the 512-byte
file f on a full two-disk RAID1 volume whose global error code holds a
stale -ENOENT: the first 512-byte chunk is written (block 1 at offset
17920 receives the caller's bytes), the next allocation fails, and the
write returns the stale -ENOENT — not -ENOSPC and not the byte count —
with the inode size left at 512 instead of covering the bytes written. -/
theorem C5_cex :
    (wfs_write fsC5 ["f"] (fun _ => 65) 512 1024).1 = -ENOENT ∧
    (wfs_write fsC5 ["f"] (fun _ => 65) 512 1024).1 ≠ -ENOSPC ∧
    (wfs_write fsC5 ["f"] (fun _ => 65) 512 1024).1 ≠ (512 : Int) ∧
    ((((wfs_write fsC5 ["f"] (fun _ => 65) 512 1024).2).disk 0).inodes 1).size = 512 ∧
    (((wfs_write fsC5 ["f"] (fun _ => 65) 512 1024).2).disk 0).data 17920 = 65 := by
  decide

/-- C7 counterexample: inserting entry 1 into the fresh root and then
deleting it reaches a state with link count 2 and no children, violating
the claimed invariant nlinks = 1 + children (deletion never decrements
the link count). -/
theorem C7_cex :
    DirReachable (dirDelete ((dirInsert rootDirNode 1 "a" true).getD rootDirNode) 1) ∧
    ¬ dirInv (dirDelete ((dirInsert rootDirNode 1 "a" true).getD rootDirNode) 1) := by
  constructor
  · exact DirReachable.delete 1 (DirReachable.insert DirReachable.init
      (show (1 : Nat) ≠ 0 by decide)
      (show dirInsert rootDirNode 1 "a" true
        = some ((dirInsert rootDirNode 1 "a" true).getD rootDirNode) from rfl))
  · unfold dirInv
    decide

/-- C8 counterexample: logical block index 71 does not resolve — the
resolver rejects every index above 70 — even with the allocate flag set
and the indirect block present, although the claim says 71 is the
maximum addressable index. -/
theorem C8_cex :
    ((fsR1.disk 0).inodes 2).blocks IND_BLOCK ≠ 0 ∧
    (get_block_location fsR1 2 (71 * BLOCK_SIZE) true 0).1 = none := by
  decide

/-! ## C10: delete_dir_entry frame property -/

theorem clearFirst_spec : ∀ (l : List Dentry) (inum : Nat), (∃ e ∈ l, e.num = inum) →
    ∃ pre e post, l = pre ++ e :: post ∧ e.num = inum ∧ (∀ x ∈ pre, x.num ≠ inum) ∧
      clearFirst l inum = some (pre ++ { e with num := 0 } :: post)
  | [], _, h => absurd h (by simp)
  | e :: rest, inum, h => by
    by_cases he : e.num = inum
    · exact ⟨[], e, rest, by simp, he, by simp, by simp [clearFirst, he]⟩
    · have hrest : ∃ x ∈ rest, x.num = inum := by
        rcases h with ⟨x, hx, hxn⟩
        rcases List.mem_cons.mp hx with rfl | hx2
        · exact absurd hxn he
        · exact ⟨x, hx2, hxn⟩
      rcases clearFirst_spec rest inum hrest with ⟨pre, f, post, hsplit, hfn, hpre, hcf⟩
      refine ⟨e :: pre, f, post, by simp [hsplit], hfn, ?_, by simp [clearFirst, he, hcf]⟩
      intro x hx
      rcases List.mem_cons.mp hx with rfl | hx2
      · exact he
      · exact hpre x hx2

theorem disk_set_dir_slots (fs : FS) (d pnum : Nat) (slots : List Dentry) (i : Nat) :
    (set_dir_slots fs d pnum slots).disk i =
      if i = d ∧ d < fs.disks.length then
        { fs.disk d with dirs := fun n => if n = pnum then slots else (fs.disk d).dirs n }
      else fs.disk i := by
  unfold set_dir_slots
  exact disk_setDisk ..

/-- C10: for every directory inode and every inode number present in its
entries, delete_dir_entry changes only the first matched slot's inode
number field (to 0), keeping its name, every other slot, every inode
record (hence the directory's size and link count), every other
directory, every other disk, both bitmaps and the data bytes. -/
theorem C10_delete_frame (fs : FS) (pnum inum disk : Nat)
    (hpresent : ∃ e ∈ (fs.disk disk).dirs pnum, e.num = inum) :
    C10Concl fs pnum inum disk := by
  have hlt : disk < fs.disks.length := by
    by_contra hge
    have hdef : fs.disk disk = default := by
      unfold FS.disk
      exact List.getD_eq_default _ _ (Nat.le_of_not_lt hge)
    rw [hdef] at hpresent
    rcases hpresent with ⟨e, he, _⟩
    exact List.not_mem_nil e he
  rcases clearFirst_spec _ inum hpresent with ⟨pre, e, post, hsplit, hen, hpre, hcf⟩
  have hdel : delete_dir_entry fs pnum inum disk
      = (0, set_dir_slots fs disk pnum (pre ++ { e with num := 0 } :: post)) := by
    unfold delete_dir_entry
    rw [hcf]
  refine ⟨pre, e, post, hsplit, hen, hpre, by rw [hdel], ?_, ?_, ?_, ?_, ?_, ?_, ?_, ?_⟩
  · rw [hdel]
    dsimp only
    rw [disk_set_dir_slots, if_pos ⟨rfl, hlt⟩]
    simp
  · intro i
    rw [hdel]
    dsimp only
    rw [disk_set_dir_slots]
    split_ifs with h
    · obtain ⟨rfl, _⟩ := h
      rfl
    · rfl
  · intro i hi
    rw [hdel]
    dsimp only
    rw [disk_set_dir_slots, if_neg (fun h => hi h.1)]
  · intro q hq
    rw [hdel]
    dsimp only
    rw [disk_set_dir_slots, if_pos ⟨rfl, hlt⟩]
    simp [hq]
  · rw [hdel]
    dsimp only
    rw [disk_set_dir_slots, if_pos ⟨rfl, hlt⟩]
  · rw [hdel]
    dsimp only
    rw [disk_set_dir_slots, if_pos ⟨rfl, hlt⟩]
  · rw [hdel]
    dsimp only
    rw [disk_set_dir_slots, if_pos ⟨rfl, hlt⟩]
  · rw [hdel]
    dsimp only
    rw [disk_set_dir_slots, if_pos ⟨rfl, hlt⟩]

/-- C10 witness: deleting inode number 1 from the root directory of
fsC1. -/
theorem C10_delete_frame_witness : C10Concl fsC1 0 1 0 :=
  C10_delete_frame fsC1 0 1 0 (by decide)

/-! ## C7: link counts under entry insertion and deletion -/

theorem usedCount_append (a b : List Dentry) :
    usedCount (a ++ b) = usedCount a + usedCount b := by
  simp [usedCount, List.filter_append]

theorem usedCount_fillFirstFree : ∀ (l : List Dentry) (num : Nat) (name : String)
    (l' : List Dentry), num ≠ 0 → fillFirstFree l num name = some l' →
    usedCount l' = usedCount l + 1
  | [], num, name, l', _, h => by simp [fillFirstFree] at h
  | e :: rest, num, name, l', hnum, h => by
    unfold fillFirstFree at h
    split_ifs at h with he
    · cases h
      have hnum2 : (num != 0) = true := by simpa using hnum
      simp [usedCount, List.filter_cons, he, hnum2]
    · rcases Option.map_eq_some'.mp h with ⟨r, hr, rfl⟩
      have ih := usedCount_fillFirstFree rest num name r hnum hr
      have he2 : (e.num != 0) = true := by simpa using he
      simp [usedCount, List.filter_cons, he2] at ih ⊢
      omega

theorem usedCount_newBlockSlots (num : Nat) (name : String) (h : num ≠ 0) :
    usedCount (newBlockSlots num name) = 1 := by
  have h2 : (num != 0) = true := by simpa using h
  unfold newBlockSlots usedCount
  rw [List.filter_cons]
  simp only [h2, if_true]
  norm_num

/-- C7 (amended): every successful directory-entry insertion increments
the parent's link count by exactly one; deletion leaves the link count
unchanged; consequently the invariant nlinks = 1 + children holds in all
states reachable by insertions alone, and can fail once entries are
removed. -/
theorem C7_amended :
    (∀ (s s' : DirNode) (num : Nat) (name : String) (ca : Bool),
      dirInsert s num name ca = some s' → s'.nlinks = s.nlinks + 1) ∧
    (∀ (s : DirNode) (inum : Nat), (dirDelete s inum).nlinks = s.nlinks) ∧
    (∀ s : DirNode, DirReachableIns s → dirInv s) := by
  refine ⟨?_, ?_, ?_⟩
  · intro s s' num name ca h
    unfold dirInsert insertCore at h
    rcases hfill : fillFirstFree s.slots num name with _ | sl <;> rw [hfill] at h
    · split_ifs at h with hca
      · cases Option.map_eq_some'.mp h with
        | intro t ht => rw [← ht.2]; cases ht.1; rfl
      · simp at h
    · cases Option.map_eq_some'.mp h with
      | intro t ht => rw [← ht.2]; cases ht.1; rfl
  · intro s inum
    unfold dirDelete
    rcases h : clearFirst s.slots inum with _ | sl <;> simp
  · intro s h
    induction h with
    | init => unfold dirInv; decide
    | insert h hnum hins ih =>
      rename_i s0 s' num name ca
      unfold dirInsert insertCore at hins
      rcases hfill : fillFirstFree s0.slots num name with _ | sl <;> rw [hfill] at hins
      · split_ifs at hins with hca
        · cases Option.map_eq_some'.mp hins with
          | intro t ht =>
            rw [← ht.2]
            cases ht.1
            unfold dirInv at ih ⊢
            dsimp only
            rw [usedCount_append, usedCount_newBlockSlots num name hnum]
            omega
        · simp at hins
      · cases Option.map_eq_some'.mp hins with
        | intro t ht =>
          rw [← ht.2]
          cases ht.1
          unfold dirInv at ih ⊢
          dsimp only
          rw [usedCount_fillFirstFree s0.slots num name sl hnum hfill]
          omega

/-- C7 witness: the invariant holds at the freshly formatted root. -/
theorem C7_amended_witness : dirInv rootDirNode :=
  C7_amended.2.2 rootDirNode DirReachableIns.init

/-! ## C8: block-resolution indexing, and C4: the absent check -/

/-- C8 (amended): the maximum addressable logical block index is 70
(= 6 direct + 64 indirect slots), not 71: every index above 70 fails in
every mode, a direct index k ≤ 6 resolves through inode.blocks[k], and
an indirect index 7 ≤ k ≤ 70 resolves through slot (k - 7) of the array
addressed by inode.blocks[7]. -/
theorem C8_amended (fs : FS) (inum offset : Nat) (alloc : Bool) (d : Nat) :
    C8Concl fs inum offset alloc d := by
  have hconst : D_BLOCK + BLOCK_SIZE / 8 = 70 := by decide
  refine ⟨?_, ?_, ?_⟩
  · intro hk
    unfold get_block_location
    rw [if_pos (by rw [hconst]; exact hk)]
  · intro hm hk6 hslot
    have hk6n : offset / BLOCK_SIZE ≤ 6 := by
      have : D_BLOCK = 6 := by decide
      omega
    have hA : ¬(alloc = true ∧
        ((fs.disk d).inodes inum).blocks (offset / BLOCK_SIZE) = 0) :=
      fun hc => hslot hc.2
    unfold get_block_location
    rw [if_neg (by rw [hconst]; omega), if_neg hm, if_neg (not_lt.mpr hk6)]
    dsimp only
    rw [if_neg hA, if_neg hslot]
  · intro hm hk7 hk70 hind hread
    have hA : ¬(alloc = true ∧
        readOff (fs.disk d).data (((fs.disk d).inodes inum).blocks IND_BLOCK
          + 8 * (offset / BLOCK_SIZE - IND_BLOCK)) = 0) :=
      fun hc => hread hc.2
    unfold get_block_location
    rw [if_neg (by rw [hconst]; omega), if_neg hm, if_pos hk7]
    dsimp only
    rw [if_neg hind, if_neg hA, if_neg hread]

/-- C8 witness: on fsR1, logical block 7 of inode 2 resolves through
slot 0 of the indirect array to byte offset 18432. -/
theorem C8_amended_witness :
    (get_block_location fsR1 2 (7 * 512) false 0).1 = some (0, 18432) := by
  have h := (C8_amended fsR1 2 (7 * 512) false 0).2.2 (by decide) (by decide)
    (by decide) (by decide) (by decide)
  exact h.trans (by decide)

/-- C4 (amended): under RAID1 and RAID1V, the resolver called with the
allocate flag clear returns absent when the direct slot is 0, and when
the indirect block exists and its slot is 0; under RAID0 no such check
is made: with a zero direct slot the resolver still returns an address —
the stripe disk with absolute byte offset 0 + offset mod BLOCK_SIZE,
which lies in the superblock region, not the data region. -/
theorem C4_amended (fs : FS) (inum offset : Nat) (d : Nat) :
    (fs.raidMode ≠ RAID0 →
      ((offset / BLOCK_SIZE ≤ D_BLOCK ∧
        ((fs.disk d).inodes inum).blocks (offset / BLOCK_SIZE) = 0) ∨
      (D_BLOCK < offset / BLOCK_SIZE ∧ offset / BLOCK_SIZE ≤ 70 ∧
        ((fs.disk d).inodes inum).blocks IND_BLOCK ≠ 0 ∧
        readOff (fs.disk d).data (((fs.disk d).inodes inum).blocks IND_BLOCK
          + 8 * (offset / BLOCK_SIZE - IND_BLOCK)) = 0)) →
      (get_block_location fs inum offset false d).1 = none) ∧
    (fs.raidMode = RAID0 → offset / BLOCK_SIZE ≤ D_BLOCK →
      ((fs.disk d).inodes inum).blocks (offset / BLOCK_SIZE) = 0 →
      (get_block_location fs inum offset false d).1
        = some (offset / BLOCK_SIZE % fs.disks.length, offset % BLOCK_SIZE)) := by
  have hconst : D_BLOCK + BLOCK_SIZE / 8 = 70 := by decide
  have hd6 : D_BLOCK = 6 := by decide
  constructor
  · intro hm hcase
    rcases hcase with ⟨hk6, hslot⟩ | ⟨hk7, hk70, hind, hread⟩
    · have hA : ¬(false = true ∧
          ((fs.disk d).inodes inum).blocks (offset / BLOCK_SIZE) = 0) :=
        fun hc => absurd hc.1 (by simp)
      unfold get_block_location
      rw [if_neg (by rw [hconst]; omega), if_neg hm, if_neg (not_lt.mpr hk6)]
      dsimp only
      rw [if_neg hA, if_pos hslot]
    · have hA : ¬(false = true ∧
          readOff (fs.disk d).data (((fs.disk d).inodes inum).blocks IND_BLOCK
            + 8 * (offset / BLOCK_SIZE - IND_BLOCK)) = 0) :=
        fun hc => absurd hc.1 (by simp)
      unfold get_block_location
      rw [if_neg (by rw [hconst]; omega), if_neg hm, if_pos hk7]
      dsimp only
      rw [if_neg hind, if_neg hA, if_pos hread]
  · intro hr hk6 hslot
    have hA : ¬(false = true ∧
        ((fs.disk d).inodes inum).blocks (offset / BLOCK_SIZE) = 0) :=
      fun hc => absurd hc.1 (by simp)
    unfold get_block_location
    rw [if_neg (by rw [hconst]; omega), if_pos hr, if_neg (not_lt.mpr hk6)]
    dsimp only
    rw [if_neg hA, hslot, Nat.zero_add]

/-- C4 witness: on the mirrored fsR1, inode 3 has a zero direct slot 0
and the resolver with the allocate flag clear returns absent; on the
RAID0 volume fsC4 the same zero slot resolves to disk 0, absolute byte
offset 0 — the superblock. -/
theorem C4_amended_witness :
    (get_block_location fsR1 3 0 false 0).1 = none ∧
    (get_block_location fsC4 3 0 false 0).1 = some (0, 0) :=
  ⟨(C4_amended fsR1 3 0 0).1 (by decide) (Or.inl (by decide)),
   ((C4_amended fsC4 3 0 0).2 (by decide) (by decide) (by decide)).trans (by decide)⟩

/-! ## C2: the RAID1V vote -/

theorem countP_range_pred (c : Nat) (p : Nat → Bool) :
    ∀ d, (∀ j, j < d → (p j = true ↔ j ≠ c)) →
      (List.range d).countP p = d - (if c < d then 1 else 0)
  | 0, _ => by simp
  | d + 1, h => by
    rw [List.range_succ, List.countP_append,
      countP_range_pred c p d (fun j hj => h j (Nat.lt_succ_of_lt hj))]
    have hd := h d (Nat.lt_succ_self d)
    by_cases hdc : d = c
    · have hp : p d = false := by
        rcases hb : p d
        · rfl
        · exact absurd hdc (hd.mp hb)
      have hone : List.countP p [d] = 0 := by simp [hp]
      have h1 : ¬ c < d := by omega
      have h2 : c < d + 1 := by omega
      rw [hone, if_neg h1, if_pos h2]
      omega
    · have hp : p d = true := hd.mpr hdc
      have hone : List.countP p [d] = 1 := by simp [hp]
      rw [hone]
      by_cases h1 : c < d
      · have h2 : c < d + 1 := Nat.lt_succ_of_lt h1
        rw [if_pos h1, if_pos h2]
        omega
      · have h2 : ¬ c < d + 1 := by omega
        rw [if_neg h1, if_neg h2]
        omega

/-- The vote-loop invariant: starting from any state consistent with
having processed the first d disks — g is the number of uncorrupted
disks among them, the running maximum is max g 1, and the recorded best
disk is an uncorrupted one as soon as g reaches 2 (or already at g = 1
when disk 0 is uncorrupted) — the loop ends on an uncorrupted disk. -/
theorem voteAux_spec (f : Nat → Int) (D c : Nat) (G B : Int)
    (hD : 3 ≤ D) (hc : c < D)
    (hgood : ∀ i, i < D → i ≠ c → f i = G) (hbad : f c = B) (hne : B ≠ G) :
    ∀ (n d best g : Nat) (maxc : Int), d + n = D → 1 ≤ d → best < D →
      (c < d → g + 1 = d) → (¬ c < d → g = d) →
      maxc = ((max g 1 : Nat) : Int) →
      (2 ≤ g → f best = G) → (c ≠ 0 → 1 ≤ g → f best = G) →
      voteAux f n d best maxc < D ∧ f (voteAux f n d best maxc) = G := by
  have cnt_good : ∀ d, d < D → d ≠ c →
      cntBelow f d = d - (if c < d then 1 else 0) := by
    intro d hdD hdc
    unfold cntBelow
    apply countP_range_pred
    intro j hj
    constructor
    · intro hp hjc
      subst hjc
      rw [hbad, hgood d hdD hdc] at hp
      exact hne (by simpa using hp)
    · intro hjc
      rw [hgood j (Nat.lt_trans hj hdD) hjc, hgood d hdD hdc]
      simp
  have cnt_good_lt : ∀ d, c < d → d < D → cntBelow f d = d - 1 := by
    intro d hcd hdD
    rw [cnt_good d hdD (by omega), if_pos hcd]
  have cnt_good_gt : ∀ d, ¬ c < d → d ≠ c → d < D → cntBelow f d = d := by
    intro d hcd hdc hdD
    rw [cnt_good d hdD hdc, if_neg hcd]
    omega
  have cnt_c : cntBelow f c = 0 := by
    unfold cntBelow
    rw [List.countP_eq_zero]
    intro j hj
    rw [List.mem_range] at hj
    rw [hgood j (Nat.lt_trans hj hc) (Nat.ne_of_lt hj), hbad]
    simp
    intro hGB
    exact hne hGB.symm
  intro n
  induction n with
  | zero =>
    intro d best g maxc hdn hd1 hbest hglt hgge hmax h2good h1good
    have hdD : d = D := by omega
    have hg : g + 1 = d := hglt (by omega)
    exact ⟨hbest, h2good (by omega)⟩
  | succ n ih =>
    intro d best g maxc hdn hd1 hbest hglt hgge hmax h2good h1good
    have hdD : d < D := by omega
    simp only [voteAux]
    by_cases hdc : d = c
    · have hcnt : cntBelow f d = 0 := by rw [hdc, cnt_c]
      rw [if_neg (by
        rw [hcnt, hmax]
        have h1 : 1 ≤ max g 1 := Nat.le_max_right g 1
        push_cast
        omega)]
      have hgd : g = d := hgge (by omega)
      exact ih (d + 1) best g maxc (by omega) (by omega) hbest
        (fun _ => by omega) (fun hn2 => absurd (by omega : c < d + 1) hn2)
        hmax h2good h1good
    · have hfd : f d = G := hgood d hdD hdc
      by_cases hg0 : g = 0
      · have hcd : c < d := by
          by_contra hncd
          have := hgge hncd
          omega
        have hd1e : d = 1 := by
          have := hglt hcd
          omega
        have hcc0 : c = 0 := by omega
        have hcnt : cntBelow f d = d - 1 := cnt_good_lt d hcd hdD
        rw [if_neg (by
          rw [hcnt, hmax, hg0]
          push_cast
          omega)]
        exact ih (d + 1) best (g + 1) maxc (by omega) (by omega) hbest
          (fun _ => by omega)
          (fun hn2 => absurd (by omega : c < d + 1) hn2)
          (by rw [hmax, hg0]; norm_num)
          (fun h2 => absurd h2 (by omega))
          (fun hcc _ => absurd hcc0 hcc)
      · by_cases hcd : c < d
        · have hg1 : g + 1 = d := hglt hcd
          have hcnt : cntBelow f d = d - 1 := cnt_good_lt d hcd hdD
          rw [if_pos (by
            rw [hcnt, hmax]
            have hmx : max g 1 = g := Nat.max_eq_left (by omega)
            rw [hmx]
            push_cast
            omega)]
          exact ih (d + 1) d (g + 1) (1 + (cntBelow f d : Int)) (by omega)
            (by omega) hdD (fun _ => by omega)
            (fun hn2 => absurd (by omega : c < d + 1) hn2)
            (by
              rw [hcnt]
              have hmx : max (g + 1) 1 = g + 1 := Nat.max_eq_left (by omega)
              rw [hmx]
              push_cast
              omega)
            (fun _ => hfd) (fun _ _ => hfd)
        · have hgd : g = d := hgge hcd
          have hcnt : cntBelow f d = d := cnt_good_gt d hcd hdc hdD
          rw [if_pos (by
            rw [hcnt, hmax]
            have hmx : max g 1 = g := Nat.max_eq_left (by omega)
            rw [hmx]
            push_cast
            omega)]
          have hcd2 : ¬ c < d + 1 := by omega
          exact ih (d + 1) d (g + 1) (1 + (cntBelow f d : Int)) (by omega)
            (by omega) hdD (fun h => absurd h hcd2) (fun _ => by omega)
            (by
              rw [hcnt]
              have hmx : max (g + 1) 1 = g + 1 := Nat.max_eq_left (by omega)
              rw [hmx]
              push_cast
              omega)
            (fun _ => hfd) (fun _ _ => hfd)

/-- The RAID1V vote over D ≥ 3 disks, exactly one of which (disk c) has
a checksum B different from the common checksum G of all the others,
ends on a disk with checksum G. -/
theorem voteAux_scenario (f : Nat → Int) (D c : Nat) (G B : Int)
    (hD : 3 ≤ D) (hc : c < D)
    (hgood : ∀ i, i < D → i ≠ c → f i = G) (hbad : f c = B) (hne : B ≠ G) :
    bestDisk f D < D ∧ f (bestDisk f D) = G := by
  unfold bestDisk
  obtain ⟨n, hn⟩ : ∃ n, D = n + 1 := ⟨D - 1, by omega⟩
  rw [hn]
  simp only [voteAux]
  have hcnt0 : cntBelow f 0 = 0 := by
    unfold cntBelow
    simp
  rw [if_pos (by rw [hcnt0]; norm_num)]
  by_cases hc0 : c = 0
  · have h := voteAux_spec f D c G B hD hc hgood hbad hne n 1 0 0
      (1 + (cntBelow f 0 : Int)) (by omega) (by omega) (by omega)
      (fun _ => by omega)
      (fun hn1 => absurd (show c < 1 by omega) hn1)
      (by rw [hcnt0]; norm_num)
      (fun h2 => absurd h2 (by omega))
      (fun hcc _ => absurd hc0 hcc)
    rw [hn] at h
    exact h
  · have h := voteAux_spec f D c G B hD hc hgood hbad hne n 1 0 1
      (1 + (cntBelow f 0 : Int)) (by omega) (by omega) (by omega)
      (fun hlt => absurd (show c = 0 by omega) hc0)
      (fun _ => rfl)
      (by rw [hcnt0]; norm_num)
      (fun h2 => absurd h2 (by omega))
      (fun _ _ => hgood 0 (by omega) (fun he => hc0 he.symm))
    rw [hn] at h
    exact h

/-- C2 (amended): under RAID1V with at least three disks, when the path
resolves on every disk, every disk but disk c computes the same
checksum G and serves the same (uncorrupted) bytes, and the corrupted
disk c's checksum B differs from G, the vote picks an uncorrupted disk
and read returns the uncorrupted content.  With only two disks, or when
the corruption preserves the byte-sum checksum, recovery can fail
(see the counterexample). -/
theorem C2_amended (fs : FS) (path : List String) (offset length : Nat)
    (inum c s : Nat) (G B : Int) (good : List Int)
    (hmode : fs.raidMode = RAID1V)
    (hD : 3 ≤ fs.disks.length)
    (hc : c < fs.disks.length)
    (hres : ∀ d, d < fs.disks.length → (find_inode_by_path fs path d).1 = some inum)
    (hsz : ∀ d, d < fs.disks.length → ((fs.disk d).inodes inum).size = s)
    (hGood : ∀ d, d < fs.disks.length → d ≠ c →
      diskChecksum fs path offset length d = G)
    (hBad : diskChecksum fs path offset length c = B)
    (hBG : B ≠ G)
    (hContent : ∀ d, d < fs.disks.length → d ≠ c →
      readLoopBytes (fileByte fs d inum) s length length offset 0 [] = good) :
    wfs_read fs path offset length = some good := by
  obtain ⟨hlt, hG⟩ := voteAux_scenario (diskChecksum fs path offset length)
    fs.disks.length c G B hD hc hGood hBad hBG
  have hbc : bestDisk (diskChecksum fs path offset length) fs.disks.length ≠ c := by
    intro h
    rw [h, hBad] at hG
    exact hBG hG
  unfold wfs_read
  rw [if_pos hmode]
  unfold readPass
  rw [hres _ hlt]
  dsimp only
  rw [hsz _ hlt, hContent _ hlt hbc]

/-- C2 witness: on the three-disk volume fsW2 whose disk 0 is corrupted,
read returns the uncorrupted byte. -/
theorem C2_amended_witness : wfs_read fsW2 ["f"] 0 1 = some [0] :=
  C2_amended fsW2 ["f"] 0 1 1 0 1 0 1 [0] rfl (by decide) (by decide)
    (by decide) (by decide) (by decide) (by decide) (by decide) (by decide)

/-! ## Disk-effect lemmas for the release path -/

theorem disk_release_block (fs : FS) (blk d i : Nat) :
    (release_block fs blk d).disk i =
      if i = d ∧ d < fs.disks.length then
        { fs.disk d with
          data := memsetZero (fs.disk d).data blk BLOCK_SIZE
          dBitmap := release_bitmap ((blk - (fs.disk d).sb.d_blocks_ptr) / BLOCK_SIZE)
            (fs.disk d).dBitmap }
      else fs.disk i := by
  simp only [release_block]
  rw [disk_setDisk]

theorem disk_release_inode (fs : FS) (inum d i : Nat) :
    (release_inode fs inum d).disk i =
      if i = d ∧ d < fs.disks.length then
        { fs.disk d with
          inodes := fun n => if n = inum then zeroInode else (fs.disk d).inodes n
          iBitmap := release_bitmap
            (((fs.disk d).sb.i_blocks_ptr + inum * BLOCK_SIZE
              + (fs.disk d).sb.i_blocks_ptr) / BLOCK_SIZE)
            (fs.disk d).iBitmap }
      else fs.disk i := by
  simp only [release_inode]
  rw [disk_setDisk]

theorem raidMode_release_block (fs : FS) (blk d : Nat) :
    (release_block fs blk d).raidMode = fs.raidMode := rfl

theorem length_release_block (fs : FS) (blk d : Nat) :
    (release_block fs blk d).disks.length = fs.disks.length := by
  simp only [release_block]
  exact length_setDisk ..

theorem raidMode_release_inode (fs : FS) (inum d : Nat) :
    (release_inode fs inum d).raidMode = fs.raidMode := rfl

theorem length_release_inode (fs : FS) (inum d : Nat) :
    (release_inode fs inum d).disks.length = fs.disks.length := by
  simp only [release_inode]
  exact length_setDisk ..

theorem inodes_release_block (fs : FS) (blk d i : Nat) :
    ((release_block fs blk d).disk i).inodes = (fs.disk i).inodes := by
  rw [disk_release_block]
  split_ifs with h
  · rw [h.1]
  · rfl

theorem sb_release_block (fs : FS) (blk d i : Nat) :
    ((release_block fs blk d).disk i).sb = (fs.disk i).sb := by
  rw [disk_release_block]
  split_ifs with h
  · rw [h.1]
  · rfl

theorem dBitmap_false_release_block (fs : FS) (blk d i pos : Nat)
    (h : (fs.disk i).dBitmap pos = false) :
    ((release_block fs blk d).disk i).dBitmap pos = false := by
  rw [disk_release_block]
  split_ifs with hcase
  · obtain ⟨rfl, _⟩ := hcase
    unfold release_bitmap
    dsimp only
    split_ifs with hp
    · rfl
    · exact h
  · exact h

theorem dBitmap_release_block_cleared (fs : FS) (blk d : Nat)
    (hd : d < fs.disks.length) :
    ((release_block fs blk d).disk d).dBitmap
      ((blk - (fs.disk d).sb.d_blocks_ptr) / BLOCK_SIZE) = false := by
  rw [disk_release_block, if_pos ⟨rfl, hd⟩]
  unfold release_bitmap
  simp

theorem dBitmap_release_block_other (fs : FS) (blk d i : Nat) (hi : i ≠ d) :
    ((release_block fs blk d).disk i).dBitmap = (fs.disk i).dBitmap := by
  rw [disk_release_block, if_neg (fun h => hi h.1)]

theorem dBitmap_release_inode (fs : FS) (inum d i : Nat) :
    ((release_inode fs inum d).disk i).dBitmap = (fs.disk i).dBitmap := by
  rw [disk_release_inode]
  split_ifs with h
  · rw [h.1]
  · rfl

theorem dBitmap_delete_dir_entry (fs : FS) (pnum inum d i : Nat) :
    (((delete_dir_entry fs pnum inum d).2).disk i).dBitmap = (fs.disk i).dBitmap := by
  unfold delete_dir_entry
  rcases h : clearFirst ((fs.disk d).dirs pnum) inum with _ | slots
  · rfl
  · dsimp only
    rw [disk_set_dir_slots]
    split_ifs with hc
    · rw [hc.1]
    · rfl

theorem raidMode_delete_dir_entry (fs : FS) (pnum inum d : Nat) :
    ((delete_dir_entry fs pnum inum d).2).raidMode = fs.raidMode := by
  unfold delete_dir_entry
  rcases h : clearFirst ((fs.disk d).dirs pnum) inum with _ | slots <;> rfl

theorem length_delete_dir_entry (fs : FS) (pnum inum d : Nat) :
    ((delete_dir_entry fs pnum inum d).2).disks.length = fs.disks.length := by
  unfold delete_dir_entry
  rcases h : clearFirst ((fs.disk d).dirs pnum) inum with _ | slots
  · rfl
  · dsimp only
    unfold set_dir_slots
    exact length_setDisk ..

theorem readOff_congr (m m2 : Nat → Nat) (a : Nat)
    (h : ∀ p, a ≤ p → p < a + 8 → m p = m2 p) : readOff m a = readOff m2 a := by
  unfold readOff
  rw [h a (by omega) (by omega), h (a + 1) (by omega) (by omega),
    h (a + 2) (by omega) (by omega), h (a + 3) (by omega) (by omega),
    h (a + 4) (by omega) (by omega), h (a + 5) (by omega) (by omega),
    h (a + 6) (by omega) (by omega), h (a + 7) (by omega) (by omega)]

theorem foldl_invariant {α : Type} (P : FS → Prop) (f : FS → α → FS) :
    ∀ (l : List α) (fs : FS), P fs → (∀ acc x, x ∈ l → P acc → P (f acc x)) →
      P (l.foldl f fs)
  | [], fs, h, _ => h
  | x :: xs, fs, h, hstep =>
    foldl_invariant P f xs (f fs x) (hstep fs x (by simp) h)
      (fun acc y hy hacc => hstep acc y (by simp [hy]) hacc)

/-! ## C3: RAID0 placement and release routing -/

theorem find_snd (fs : FS) (path : List String) (d i : Nat)
    (h : (find_inode_by_path fs path d).1 = some i) :
    (find_inode_by_path fs path d).2 = fs := by
  unfold find_inode_by_path at h ⊢
  cases hg : get_inode fs 0 d with
  | none => rw [hg] at h
  | some r =>
    rw [hg] at h
    cases hl : locate_inode fs d 0 path with
    | none =>
      rw [hl] at h
      exact Option.noConfusion h
    | some j => rfl

theorem find_pair (fs : FS) (path : List String) (d i : Nat)
    (h : (find_inode_by_path fs path d).1 = some i) :
    find_inode_by_path fs path d = (some i, fs) := by
  have h2 := find_snd fs path d i h
  have h3 : find_inode_by_path fs path d
      = ((find_inode_by_path fs path d).1, (find_inode_by_path fs path d).2) := rfl
  rw [h3, h, h2]

theorem raidMode_indStep (inum cur : Nat) (acc : FS) (i : Nat) :
    (indStep inum cur acc i).raidMode = acc.raidMode := by
  unfold indStep
  dsimp only
  split_ifs <;> rfl

theorem raidMode_dirStep (inum cur : Nat) (acc : FS) (i : Nat) :
    (dirStep inum cur acc i).raidMode = acc.raidMode := by
  unfold dirStep
  dsimp only
  split_ifs <;> rfl

theorem dBitmap_false_indStep (inum cur : Nat) (acc : FS) (i j pos : Nat)
    (h : (acc.disk j).dBitmap pos = false) :
    ((indStep inum cur acc i).disk j).dBitmap pos = false := by
  unfold indStep
  dsimp only
  split_ifs with hc
  · exact dBitmap_false_release_block _ _ _ _ _ h
  · exact h

theorem dBitmap_false_dirStep (inum cur : Nat) (acc : FS) (i j pos : Nat)
    (h : (acc.disk j).dBitmap pos = false) :
    ((dirStep inum cur acc i).disk j).dBitmap pos = false := by
  unfold dirStep
  dsimp only
  split_ifs <;>
    first
      | exact dBitmap_false_release_block _ _ _ _ _ h
      | exact h

theorem inodes_indStep (inum cur : Nat) (acc : FS) (i j : Nat) :
    ((indStep inum cur acc i).disk j).inodes = (acc.disk j).inodes := by
  unfold indStep
  dsimp only
  split_ifs with hc
  · exact inodes_release_block ..
  · rfl

theorem sb_indStep (inum cur : Nat) (acc : FS) (i j : Nat) :
    ((indStep inum cur acc i).disk j).sb = (acc.disk j).sb := by
  unfold indStep
  dsimp only
  split_ifs with hc
  · exact sb_release_block ..
  · rfl

theorem length_indStep (inum cur : Nat) (acc : FS) (i : Nat) :
    (indStep inum cur acc i).disks.length = acc.disks.length := by
  unfold indStep
  dsimp only
  split_ifs with hc
  · exact length_release_block ..
  · rfl

/-- The indirect free loop clears, on disk 0, the data-bitmap bit of
every nonzero entry of the indirect pointer array, provided the listed
blocks do not overlap the indirect block itself (so the array being read
is never zeroed under the loop). -/
theorem indFold_clears (fs : FS) (inum base : Nat) (hd0 : 0 < fs.disks.length)
    (hbase : ((fs.disk 0).inodes inum).blocks IND_BLOCK = base)
    (hdisj : ∀ i, i < BLOCK_SIZE / 8 →
      readOff (fs.disk 0).data (base + 8 * i) ≠ 0 →
      base + BLOCK_SIZE ≤ readOff (fs.disk 0).data (base + 8 * i) ∨
        readOff (fs.disk 0).data (base + 8 * i) + BLOCK_SIZE ≤ base) :
    ∀ (l : List Nat) (acc : FS),
      (∀ i ∈ l, i < BLOCK_SIZE / 8) →
      (∀ p, base ≤ p → p < base + BLOCK_SIZE →
        (acc.disk 0).data p = (fs.disk 0).data p) →
      ((acc.disk 0).inodes inum).blocks IND_BLOCK = base →
      (acc.disk 0).sb = (fs.disk 0).sb →
      acc.disks.length = fs.disks.length →
      ∀ j ∈ l, readOff (fs.disk 0).data (base + 8 * j) ≠ 0 →
        ((l.foldl (indStep inum 0) acc).disk 0).dBitmap
          ((readOff (fs.disk 0).data (base + 8 * j)
            - (fs.disk 0).sb.d_blocks_ptr) / BLOCK_SIZE) = false := by
  intro l
  induction l with
  | nil =>
    intro acc _ _ _ _ _ j hj
    exact absurd hj (List.not_mem_nil j)
  | cons x xs ih =>
    intro acc hin hagree hblocks hsb hlen j hj hread
    have hB : BLOCK_SIZE / 8 = 64 := by decide
    have hx64 : x < 64 := by
      have := hin x (by simp)
      omega
    have hbval : readOff (acc.disk 0).data
        (((acc.disk 0).inodes inum).blocks IND_BLOCK + 8 * x)
        = readOff (fs.disk 0).data (base + 8 * x) := by
      rw [hblocks]
      refine readOff_congr _ _ _ (fun p hp1 hp2 => hagree p (by omega) ?_)
      have h512 : BLOCK_SIZE = 512 := rfl
      omega
    have hacclen : 0 < acc.disks.length := by
      rw [hlen]
      exact hd0
    simp only [List.foldl_cons]
    by_cases hbx : readOff (fs.disk 0).data (base + 8 * x) = 0
    · have hstep : indStep inum 0 acc x = acc := by
        unfold indStep
        dsimp only
        rw [if_neg (by rw [hbval, hbx]; simp)]
      rw [hstep]
      rcases List.mem_cons.mp hj with rfl | hjxs
      · exact absurd hbx hread
      · exact ih acc (fun i hi => hin i (List.mem_cons_of_mem x hi))
          hagree hblocks hsb hlen j hjxs hread
    · have hstep : indStep inum 0 acc x
          = release_block acc (readOff (fs.disk 0).data (base + 8 * x)) 0 := by
        unfold indStep
        dsimp only
        rw [hbval, if_pos hbx]
      rw [hstep]
      have hdisjx := hdisj x (by omega) hbx
      have hagree2 : ∀ p, base ≤ p → p < base + BLOCK_SIZE →
          ((release_block acc (readOff (fs.disk 0).data (base + 8 * x)) 0).disk 0).data p
            = (fs.disk 0).data p := by
        intro p hp1 hp2
        rw [disk_release_block, if_pos ⟨rfl, hacclen⟩]
        dsimp only
        unfold memsetZero
        rw [if_neg (by rcases hdisjx with hcase | hcase <;> omega)]
        exact hagree p hp1 hp2
      have hblocks2 : (((release_block acc (readOff (fs.disk 0).data (base + 8 * x)) 0).disk
          0).inodes inum).blocks IND_BLOCK = base := by
        rw [inodes_release_block]
        exact hblocks
      have hsb2 : ((release_block acc (readOff (fs.disk 0).data (base + 8 * x)) 0).disk 0).sb
          = (fs.disk 0).sb := by
        rw [sb_release_block]
        exact hsb
      have hlen2 : (release_block acc (readOff (fs.disk 0).data (base + 8 * x))
          0).disks.length = fs.disks.length := by
        rw [length_release_block]
        exact hlen
      rcases List.mem_cons.mp hj with rfl | hjxs
      · have hclear : ((release_block acc (readOff (fs.disk 0).data (base + 8 * j))
            0).disk 0).dBitmap
            ((readOff (fs.disk 0).data (base + 8 * j)
              - (fs.disk 0).sb.d_blocks_ptr) / BLOCK_SIZE) = false := by
          have hc := dBitmap_release_block_cleared acc
            (readOff (fs.disk 0).data (base + 8 * j)) 0 hacclen
          rw [hsb] at hc
          exact hc
        exact foldl_invariant
          (fun s => (s.disk 0).dBitmap
            ((readOff (fs.disk 0).data (base + 8 * j)
              - (fs.disk 0).sb.d_blocks_ptr) / BLOCK_SIZE) = false)
          (indStep inum 0) xs _ hclear
          (fun acc2 y _ hP => dBitmap_false_indStep inum 0 acc2 y 0 _ hP)
      · exact ih _ (fun i hi => hin i (List.mem_cons_of_mem x hi))
          hagree2 hblocks2 hsb2 hlen2 j hjxs hread

/-- The block-pointer-table free loop under RAID0 clears the data-bitmap
bit of every nonzero slot i on disk (i mod total_devices). -/
theorem dirFold_clears (fs : FS) (inum : Nat) (hd0 : 0 < fs.disks.length)
    (hmode : fs.raidMode = RAID0) :
    ∀ (l : List Nat) (acc : FS),
      (∀ i, ((acc.disk 0).inodes inum).blocks i
        = ((fs.disk 0).inodes inum).blocks i) →
      (∀ i, (acc.disk i).sb = (fs.disk i).sb) →
      acc.disks.length = fs.disks.length →
      acc.raidMode = fs.raidMode →
      ∀ j ∈ l, ((fs.disk 0).inodes inum).blocks j ≠ 0 →
        ((l.foldl (dirStep inum 0) acc).disk (j % fs.disks.length)).dBitmap
          ((((fs.disk 0).inodes inum).blocks j
            - (fs.disk (j % fs.disks.length)).sb.d_blocks_ptr) / BLOCK_SIZE) = false := by
  intro l
  induction l with
  | nil =>
    intro acc _ _ _ _ j hj
    exact absurd hj (List.not_mem_nil j)
  | cons x xs ih =>
    intro acc hblocks hsb hlen hrm j hj hbx0
    simp only [List.foldl_cons]
    by_cases hbx : ((fs.disk 0).inodes inum).blocks x = 0
    · have hstep : dirStep inum 0 acc x = acc := by
        unfold dirStep
        dsimp only
        rw [if_neg (by rw [hblocks x, hbx]; simp)]
      rw [hstep]
      rcases List.mem_cons.mp hj with rfl | hjxs
      · exact absurd hbx hbx0
      · exact ih acc hblocks hsb hlen hrm j hjxs hbx0
    · have hstep : dirStep inum 0 acc x
          = release_block acc (((fs.disk 0).inodes inum).blocks x)
            (x % fs.disks.length) := by
        unfold dirStep
        dsimp only
        rw [hblocks x, if_pos hbx, if_pos (by rw [hrm, hmode]), hlen]
      rw [hstep]
      have hblocks2 : ∀ i, (((release_block acc (((fs.disk 0).inodes inum).blocks x)
          (x % fs.disks.length)).disk 0).inodes inum).blocks i
          = ((fs.disk 0).inodes inum).blocks i := by
        intro i
        rw [inodes_release_block]
        exact hblocks i
      have hsb2 : ∀ i, ((release_block acc (((fs.disk 0).inodes inum).blocks x)
          (x % fs.disks.length)).disk i).sb = (fs.disk i).sb := by
        intro i
        rw [sb_release_block]
        exact hsb i
      have hlen2 : (release_block acc (((fs.disk 0).inodes inum).blocks x)
          (x % fs.disks.length)).disks.length = fs.disks.length := by
        rw [length_release_block]
        exact hlen
      have hrm2 : (release_block acc (((fs.disk 0).inodes inum).blocks x)
          (x % fs.disks.length)).raidMode = fs.raidMode := by
        rw [raidMode_release_block]
        exact hrm
      rcases List.mem_cons.mp hj with rfl | hjxs
      · have hjlt : j % fs.disks.length < acc.disks.length := by
          rw [hlen]
          exact Nat.mod_lt j hd0
        have hclear := dBitmap_release_block_cleared acc
          (((fs.disk 0).inodes inum).blocks j) (j % fs.disks.length) hjlt
        rw [hsb (j % fs.disks.length)] at hclear
        exact foldl_invariant
          (fun s => (s.disk (j % fs.disks.length)).dBitmap
            ((((fs.disk 0).inodes inum).blocks j
              - (fs.disk (j % fs.disks.length)).sb.d_blocks_ptr) / BLOCK_SIZE) = false)
          (dirStep inum 0) xs _ hclear
          (fun acc2 y _ hP => dBitmap_false_dirStep inum 0 acc2 y _ _ hP)
      · exact ih _ hblocks2 hsb2 hlen2 hrm2 j hjxs hbx0

/-- The data bitmaps after a RAID0 wfs_unlink (with both path lookups
succeeding) are exactly the data bitmaps after the two free loops: the
subsequent directory-entry clear and inode releases do not touch them. -/
theorem wfs_unlink_reduce (fs : FS) (path : List String) (pnum inum : Nat)
    (hD : 0 < fs.disks.length)
    (hmode : fs.raidMode = RAID0)
    (hpar : (find_inode_by_path fs path.dropLast 0).1 = some pnum)
    (htgt : (find_inode_by_path fs path 0).1 = some inum) :
    ∀ i pos, (((wfs_unlink fs path).2).disk i).dBitmap pos
      = (((List.range N_BLOCKS).foldl (dirStep inum 0)
          (if ((fs.disk 0).inodes inum).blocks IND_BLOCK ≠ 0 then
            (List.range (BLOCK_SIZE / 8)).foldl (indStep inum 0) fs
          else fs)).disk i).dBitmap pos := by
  intro i pos
  have hp1 := find_pair fs path.dropLast 0 pnum hpar
  have hp2 := find_pair fs path 0 inum htgt
  obtain ⟨n, hn⟩ : ∃ n, fs.disks.length = n + 1 := ⟨fs.disks.length - 1, by omega⟩
  unfold wfs_unlink
  rw [hn]
  simp only [unlinkLoop]
  unfold unlinkPass
  rw [hp1]
  dsimp only
  rw [hp2]
  dsimp only
  set F3 := (if ((fs.disk 0).inodes inum).blocks IND_BLOCK ≠ 0 then
      (List.range (BLOCK_SIZE / 8)).foldl (indStep inum 0) fs
    else fs) with hF3
  set F4 := (List.range N_BLOCKS).foldl (dirStep inum 0) F3 with hF4
  have hrm3 : F3.raidMode = RAID0 := by
    rw [hF3]
    split_ifs with hcase
    · exact foldl_invariant (fun s => s.raidMode = RAID0) (indStep inum 0) _ fs hmode
        (fun acc x _ hP => (raidMode_indStep inum 0 acc x).trans hP)
    · exact hmode
  have hrm4 : F4.raidMode = RAID0 := by
    rw [hF4]
    exact foldl_invariant (fun s => s.raidMode = RAID0) (dirStep inum 0) _ F3 hrm3
      (fun acc x _ hP => (raidMode_dirStep inum 0 acc x).trans hP)
  rcases hdel : delete_dir_entry F4 pnum inum 0 with ⟨dr, fs5⟩
  dsimp only
  have hdb5 : ∀ i2, (fs5.disk i2).dBitmap = (F4.disk i2).dBitmap := by
    intro i2
    have hd := dBitmap_delete_dir_entry F4 pnum inum 0 i2
    rw [hdel] at hd
    exact hd
  have hrm5 : fs5.raidMode = RAID0 := by
    have hr := raidMode_delete_dir_entry F4 pnum inum 0
    rw [hdel] at hr
    rw [hr]
    exact hrm4
  by_cases hdr : dr < 0
  · rw [if_pos hdr]
    dsimp only
    exact congrFun (hdb5 i) pos
  · rw [if_neg hdr, if_pos hrm5]
    dsimp only
    have hfold : ∀ s0 : FS, (∀ i2, (s0.disk i2).dBitmap = (F4.disk i2).dBitmap) →
        ∀ l : List Nat, ∀ i2, (((l.foldl (fun acc k => release_inode acc inum k) s0)).disk
          i2).dBitmap = (F4.disk i2).dBitmap := by
      intro s0 hs0 l
      intro i2
      have := foldl_invariant
        (fun s => (s.disk i2).dBitmap = (F4.disk i2).dBitmap)
        (fun acc k => release_inode acc inum k) l s0 (hs0 i2)
        (fun acc x _ hP => (dBitmap_release_inode acc inum x i2).trans hP)
      exact this
    have hrel := hfold fs5 hdb5 (List.range fs5.disks.length)
    have hrm6 : ((List.range fs5.disks.length).foldl
        (fun acc k => release_inode acc inum k) fs5).raidMode = RAID0 := by
      exact foldl_invariant (fun s => s.raidMode = RAID0) _ _ fs5 hrm5
        (fun acc x _ hP => (raidMode_release_inode acc inum x).trans hP)
    rw [if_pos (Or.inl hrm6)]
    dsimp only
    exact congrFun (hrel i) pos

/-- C3 (amended): under RAID0 the resolver places every in-range logical
block k on disk (k mod total_devices); on remove, the blocks listed in
the indirect array are released on disk 0 — not on their owning disks —
while the block-pointer-table slots 0..7 are released on disk
(slot mod total_devices), which routes the direct blocks 0..6 to their
owning disks but sends the indirect block itself (slot 7) to disk
7 mod total_devices. -/
theorem C3_amended (fs : FS) (path : List String) (pnum inum : Nat)
    (hmode : fs.raidMode = RAID0)
    (hD : 0 < fs.disks.length)
    (hpar : (find_inode_by_path fs path.dropLast 0).1 = some pnum)
    (htgt : (find_inode_by_path fs path 0).1 = some inum)
    (hdisj : ∀ i, i < BLOCK_SIZE / 8 →
      readOff (fs.disk 0).data
        (((fs.disk 0).inodes inum).blocks IND_BLOCK + 8 * i) ≠ 0 →
      ((fs.disk 0).inodes inum).blocks IND_BLOCK + BLOCK_SIZE
          ≤ readOff (fs.disk 0).data
            (((fs.disk 0).inodes inum).blocks IND_BLOCK + 8 * i) ∨
        readOff (fs.disk 0).data
          (((fs.disk 0).inodes inum).blocks IND_BLOCK + 8 * i) + BLOCK_SIZE
            ≤ ((fs.disk 0).inodes inum).blocks IND_BLOCK) :
    C3Concl fs path inum := by
  refine ⟨?_, ?_, ?_⟩
  · intro offset alloc d hk
    have hconst : D_BLOCK + BLOCK_SIZE / 8 = 70 := by decide
    unfold get_block_location
    rw [if_neg (by rw [hconst]; omega), if_pos hmode]
    by_cases h6 : offset / BLOCK_SIZE > D_BLOCK
    · rw [if_pos h6]
      dsimp only
      exact ⟨_, rfl⟩
    · rw [if_neg h6]
      dsimp only
      exact ⟨_, rfl⟩
  · intro j hj hind hread
    rw [wfs_unlink_reduce fs path pnum inum hD hmode hpar htgt, if_pos hind]
    have hbit := indFold_clears fs inum (((fs.disk 0).inodes inum).blocks IND_BLOCK)
      hD rfl hdisj (List.range (BLOCK_SIZE / 8)) fs
      (fun i2 hi2 => List.mem_range.mp hi2) (fun p _ _ => rfl) rfl rfl rfl
      j (List.mem_range.mpr hj) hread
    exact foldl_invariant
      (fun s => (s.disk 0).dBitmap
        ((readOff (fs.disk 0).data
          (((fs.disk 0).inodes inum).blocks IND_BLOCK + 8 * j)
          - (fs.disk 0).sb.d_blocks_ptr) / BLOCK_SIZE) = false)
      (dirStep inum 0) (List.range N_BLOCKS) _ hbit
      (fun acc x _ hP => dBitmap_false_dirStep inum 0 acc x 0 _ hP)
  · intro i hi hbi
    rw [wfs_unlink_reduce fs path pnum inum hD hmode hpar htgt]
    by_cases hind : ((fs.disk 0).inodes inum).blocks IND_BLOCK ≠ 0
    · rw [if_pos hind]
      have hblocks1 : ((((List.range (BLOCK_SIZE / 8)).foldl (indStep inum 0) fs).disk
          0).inodes) = (fs.disk 0).inodes :=
        foldl_invariant (fun s => (s.disk 0).inodes = (fs.disk 0).inodes)
          (indStep inum 0) _ fs rfl
          (fun acc x _ hP => (inodes_indStep inum 0 acc x 0).trans hP)
      have hsb1 : ∀ i2, (((List.range (BLOCK_SIZE / 8)).foldl (indStep inum 0) fs).disk
          i2).sb = (fs.disk i2).sb := by
        intro i2
        exact foldl_invariant (fun s => (s.disk i2).sb = (fs.disk i2).sb)
          (indStep inum 0) _ fs rfl
          (fun acc x _ hP => (sb_indStep inum 0 acc x i2).trans hP)
      have hlen1 : ((List.range (BLOCK_SIZE / 8)).foldl (indStep inum 0) fs).disks.length
          = fs.disks.length :=
        foldl_invariant (fun s => s.disks.length = fs.disks.length)
          (indStep inum 0) _ fs rfl
          (fun acc x _ hP => (length_indStep inum 0 acc x).trans hP)
      have hrm1 : ((List.range (BLOCK_SIZE / 8)).foldl (indStep inum 0) fs).raidMode
          = fs.raidMode :=
        foldl_invariant (fun s => s.raidMode = fs.raidMode)
          (indStep inum 0) _ fs rfl
          (fun acc x _ hP => (raidMode_indStep inum 0 acc x).trans hP)
      exact dirFold_clears fs inum hD hmode (List.range N_BLOCKS) _
        (fun k => by rw [hblocks1]) hsb1 hlen1 hrm1 i (List.mem_range.mpr hi) hbi
    · rw [if_neg hind]
      exact dirFold_clears fs inum hD hmode (List.range N_BLOCKS) fs
        (fun _ => rfl) (fun _ => rfl) rfl rfl i (List.mem_range.mpr hi) hbi

/-- C3 witness: the placement and release-routing facts instantiated on
the concrete RAID0 volume fsC3 and its file g (inode 1). -/
theorem C3_amended_witness : C3Concl fsC3 ["g"] 1 :=
  C3_amended fsC3 ["g"] 0 1 rfl (by decide) (by decide) (by decide) (by decide)

/-! ## C5: the write path -/

theorem metaEq_refl (fs : FS) : MetaEq fs fs :=
  ⟨rfl, rfl, rfl, fun _ => rfl, fun _ => rfl, fun _ _ => rfl, fun _ => rfl⟩

theorem metaEq_trans {a b c : FS} (h1 : MetaEq a b) (h2 : MetaEq b c) : MetaEq a c :=
  ⟨h2.1.trans h1.1, h2.2.1.trans h1.2.1, h2.2.2.1.trans h1.2.2.1,
    fun i => (h2.2.2.2.1 i).trans (h1.2.2.2.1 i),
    fun i => (h2.2.2.2.2.1 i).trans (h1.2.2.2.2.1 i),
    fun i n => (h2.2.2.2.2.2.1 i n).trans (h1.2.2.2.2.2.1 i n),
    fun i => (h2.2.2.2.2.2.2 i).trans (h1.2.2.2.2.2.2 i)⟩

theorem metaEq_setDisk (fs : FS) (d : Nat) (dk : Disk)
    (h1 : dk.dirs = (fs.disk d).dirs) (h2 : dk.iBitmap = (fs.disk d).iBitmap)
    (h3 : ∀ n, (dk.inodes n).size = ((fs.disk d).inodes n).size)
    (h4 : dk.sb = (fs.disk d).sb) :
    MetaEq fs (fs.setDisk d dk) := by
  refine ⟨rfl, rfl, length_setDisk .., ?_, ?_, ?_, ?_⟩
  · intro i
    rw [disk_setDisk]
    split_ifs with hc
    · rw [h1, hc.1]
    · rfl
  · intro i
    rw [disk_setDisk]
    split_ifs with hc
    · rw [h2, hc.1]
    · rfl
  · intro i n
    rw [disk_setDisk]
    split_ifs with hc
    · rw [h3 n, hc.1]
    · rfl
  · intro i
    rw [disk_setDisk]
    split_ifs with hc
    · rw [h4, hc.1]
    · rfl

theorem metaEq_allocate_block (fs : FS) (d : Nat) :
    MetaEq fs (allocate_block fs d).2 := by
  unfold allocate_block
  dsimp only
  rcases h : allocate_bitmap_block (fs.disk d).dBitmap
      ((fs.disk d).sb.num_data_blocks / 32) with ⟨jopt, bm⟩
  try rw [h]
  cases jopt with
  | none => exact metaEq_refl fs
  | some j => exact metaEq_setDisk fs d _ rfl rfl (fun _ => rfl) rfl

theorem metaEq_set_inode_block (fs : FS) (d inum k v : Nat) :
    MetaEq fs (set_inode_block fs d inum k v) := by
  unfold set_inode_block
  refine metaEq_setDisk fs d _ rfl rfl ?_ rfl
  intro n
  dsimp only
  split_ifs with hn
  · rw [hn]
  · rfl

theorem metaEq_set_disk_data (fs : FS) (d : Nat) (m : Nat → Nat) :
    MetaEq fs (set_disk_data fs d m) := by
  unfold set_disk_data
  exact metaEq_setDisk fs d _ rfl rfl (fun _ => rfl) rfl

theorem metaEq_memcpyIn (fs : FS) (dk a : Nat) (buf : Nat → Nat)
    (srcOff len : Nat) : MetaEq fs (memcpyIn fs dk a buf srcOff len) := by
  unfold memcpyIn
  exact metaEq_setDisk fs dk _ rfl rfl (fun _ => rfl) rfl

/-- The block resolver only touches data bitmaps, block-pointer slots
and data bytes: everything in MetaEq is preserved, whatever the mode and
the allocation flag. -/
theorem metaEq_gbl (fs : FS) (inum offset : Nat) (alloc : Bool) (d : Nat) :
    MetaEq fs (get_block_location fs inum offset alloc d).2 := by
  unfold get_block_location
  by_cases h0 : offset / BLOCK_SIZE > D_BLOCK + BLOCK_SIZE / 8
  · rw [if_pos h0]
    exact metaEq_refl fs
  · rw [if_neg h0]
    by_cases hr : fs.raidMode = RAID0
    · rw [if_pos hr]
      by_cases h6 : offset / BLOCK_SIZE > D_BLOCK
      · rw [if_pos h6]
        dsimp only
        by_cases hind : ((fs.disk d).inodes inum).blocks IND_BLOCK = 0
        · rw [if_pos hind]
          have h1 : MetaEq fs ((List.range fs.disks.length).foldl
              (fun acc i =>
                set_inode_block (allocate_block acc i).2 i inum IND_BLOCK
                  (allocate_block acc i).1) fs) :=
            foldl_invariant _ _ _ fs (metaEq_refl fs)
              (fun acc x _ hacc => metaEq_trans hacc
                (metaEq_trans (metaEq_allocate_block acc x)
                  (metaEq_set_inode_block (allocate_block acc x).2 x inum IND_BLOCK
                    (allocate_block acc x).1)))
          split_ifs with hc
          · exact foldl_invariant (fun s => MetaEq fs s) _ _ _
              (metaEq_trans h1 (metaEq_allocate_block _ _))
              (fun acc x _ hacc => metaEq_trans hacc (metaEq_set_disk_data acc x _))
          · exact h1
        · rw [if_neg hind]
          split_ifs with hc
          · exact foldl_invariant (fun s => MetaEq fs s) _ _ _
              (metaEq_allocate_block fs _)
              (fun acc x _ hacc => metaEq_trans hacc (metaEq_set_disk_data acc x _))
          · exact metaEq_refl fs
      · rw [if_neg h6]
        dsimp only
        split_ifs with hc
        · exact foldl_invariant (fun s => MetaEq fs s) _ _ _
            (metaEq_allocate_block fs _)
            (fun acc x _ hacc => metaEq_trans hacc
              (metaEq_set_inode_block acc x inum (offset / BLOCK_SIZE) _))
        · exact metaEq_refl fs
    · rw [if_neg hr]
      by_cases h6 : offset / BLOCK_SIZE > D_BLOCK
      · rw [if_pos h6]
        dsimp only
        rw [apply_ite Prod.snd]
        dsimp only
        rw [ite_self]
        by_cases hind : ((fs.disk d).inodes inum).blocks IND_BLOCK = 0
        · rw [if_pos hind]
          have h1 : MetaEq fs (set_inode_block (allocate_block fs d).2 d inum IND_BLOCK
              (allocate_block fs d).1) :=
            metaEq_trans (metaEq_allocate_block fs d)
              (metaEq_set_inode_block (allocate_block fs d).2 d inum IND_BLOCK
                (allocate_block fs d).1)
          split_ifs with hc
          · exact metaEq_trans (metaEq_trans h1 (metaEq_allocate_block _ _))
              (metaEq_set_disk_data _ _ _)
          · exact h1
        · rw [if_neg hind]
          split_ifs with hc
          · exact metaEq_trans (metaEq_allocate_block fs d) (metaEq_set_disk_data _ _ _)
          · exact metaEq_refl fs
      · rw [if_neg h6]
        dsimp only
        rw [apply_ite Prod.snd]
        dsimp only
        rw [ite_self]
        split_ifs with hc
        · exact metaEq_trans (metaEq_allocate_block fs d)
            (metaEq_set_inode_block (allocate_block fs d).2 d inum (offset / BLOCK_SIZE)
              (allocate_block fs d).1)
        · exact metaEq_refl fs

/-! ## C5: the wfs_write error path -/

theorem locate_congr (a b : FS) (d : Nat)
    (h : (b.disk d).dirs = (a.disk d).dirs) :
    ∀ (p : List String) (i : Nat), locate_inode b d i p = locate_inode a d i p := by
  intro p
  induction p with
  | nil => intro i; rfl
  | cons c rest ih =>
    intro i
    unfold locate_inode
    rw [h]
    cases hf : ((a.disk d).dirs i).find? (fun e => e.num != 0 && e.name == c) with
    | none => rfl
    | some e => exact ih e.num

theorem find_fst_congr (a b : FS) (path : List String) (d : Nat)
    (h1 : (b.disk d).dirs = (a.disk d).dirs)
    (h2 : (b.disk d).iBitmap = (a.disk d).iBitmap) :
    (find_inode_by_path b path d).1 = (find_inode_by_path a path d).1 := by
  unfold find_inode_by_path get_inode
  rw [h2]
  by_cases h0 : (a.disk d).iBitmap 0 = true
  · rw [if_pos h0, if_pos h0]
    dsimp only
    rw [locate_congr a b d h1 path 0]
    cases locate_inode a d 0 path <;> rfl
  · rw [if_neg h0, if_neg h0]

theorem writeChunks_metaEq (inum d : Nat) (buf : Nat → Nat) (length : Nat) :
    ∀ (fuel pos written : Nat) (fs : FS),
      MetaEq fs (writeChunks inum d buf length fuel pos written fs).2 := by
  intro fuel
  induction fuel with
  | zero => intro pos written fs; exact metaEq_refl fs
  | succ n ih =>
    intro pos written fs
    unfold writeChunks
    by_cases hwr : written < length
    · rw [if_pos hwr]
      dsimp only
      have G := metaEq_gbl fs inum pos true d
      rcases hg : get_block_location fs inum pos true d with ⟨res, fs1⟩
      rw [hg] at G
      dsimp only at G
      cases res with
      | none => exact G
      | some pa =>
        rcases pa with ⟨dk, a⟩
        dsimp only
        exact metaEq_trans (metaEq_trans G (metaEq_memcpyIn fs1 dk a buf written _))
          (ih _ _ _)
    · rw [if_neg hwr]
      exact metaEq_refl fs

theorem set_inode_size_frame (fs : FS) (d inum sz : Nat) :
    (set_inode_size fs d inum sz).raidMode = fs.raidMode ∧
    (set_inode_size fs d inum sz).errorCode = fs.errorCode ∧
    (set_inode_size fs d inum sz).disks.length = fs.disks.length ∧
    (∀ i, ((set_inode_size fs d inum sz).disk i).dirs = (fs.disk i).dirs) ∧
    (∀ i, ((set_inode_size fs d inum sz).disk i).iBitmap = (fs.disk i).iBitmap) ∧
    (∀ i n, i ≠ d → (((set_inode_size fs d inum sz).disk i).inodes n).size
      = ((fs.disk i).inodes n).size) := by
  unfold set_inode_size
  dsimp only
  refine ⟨rfl, rfl, length_setDisk .., ?_, ?_, ?_⟩
  · intro i
    rw [disk_setDisk]
    split_ifs with hc
    · rw [hc.1]
    · rfl
  · intro i
    rw [disk_setDisk]
    split_ifs with hc
    · rw [hc.1]
    · rfl
  · intro i n hne
    rw [disk_setDisk, if_neg (fun hc => hne hc.1)]

theorem writePass_spec (fs : FS) (path : List String) (buf : Nat → Nat)
    (offset length : Nat) (d inum : Nat)
    (hmode : fs.raidMode ≠ RAID0)
    (hfind : (find_inode_by_path fs path d).1 = some inum) :
    (writePass fs path buf offset length d).2.raidMode = fs.raidMode ∧
    (writePass fs path buf offset length d).2.errorCode = fs.errorCode ∧
    (writePass fs path buf offset length d).2.disks.length = fs.disks.length ∧
    (∀ i, ((writePass fs path buf offset length d).2.disk i).dirs = (fs.disk i).dirs) ∧
    (∀ i, ((writePass fs path buf offset length d).2.disk i).iBitmap
      = (fs.disk i).iBitmap) ∧
    (∀ i n, i ≠ d → (((writePass fs path buf offset length d).2.disk i).inodes n).size
      = ((fs.disk i).inodes n).size) ∧
    ((writePass fs path buf offset length d).1 = none ∨
      ((writePass fs path buf offset length d).1 = some fs.errorCode ∧
        ∀ i n, (((writePass fs path buf offset length d).2.disk i).inodes n).size
          = ((fs.disk i).inodes n).size)) := by
  unfold writePass
  rw [find_pair fs path d inum hfind]
  dsimp only
  have W := writeChunks_metaEq inum d buf length length offset 0 fs
  rcases hw : writeChunks inum d buf length length offset 0 fs with ⟨ok, fs2⟩
  rw [hw] at W
  dsimp only at W
  cases ok with
  | false =>
    dsimp only
    exact ⟨W.1, W.2.1, W.2.2.1, W.2.2.2.1, W.2.2.2.2.1,
      (fun i n _ => W.2.2.2.2.2.1 i n),
      Or.inr ⟨congrArg some W.2.1, fun i n => W.2.2.2.2.2.1 i n⟩⟩
  | true =>
    dsimp only
    split_ifs with h1 h2
    · exact absurd (W.1.symm.trans h2) hmode
    · refine ⟨?_, ?_, ?_, ?_, ?_, ?_, Or.inl rfl⟩
      · exact ((set_inode_size_frame fs2 d inum _).1).trans W.1
      · exact ((set_inode_size_frame fs2 d inum _).2.1).trans W.2.1
      · exact ((set_inode_size_frame fs2 d inum _).2.2.1).trans W.2.2.1
      · intro i
        exact ((set_inode_size_frame fs2 d inum _).2.2.2.1 i).trans (W.2.2.2.1 i)
      · intro i
        exact ((set_inode_size_frame fs2 d inum _).2.2.2.2.1 i).trans (W.2.2.2.2.1 i)
      · intro i n hne
        exact ((set_inode_size_frame fs2 d inum _).2.2.2.2.2 i n hne).trans
          (W.2.2.2.2.2.1 i n)
    · exact ⟨W.1, W.2.1, W.2.2.1, W.2.2.2.1, W.2.2.2.2.1,
        (fun i n _ => W.2.2.2.2.2.1 i n), Or.inl rfl⟩

theorem writeLoopDisks_spec (path : List String) (buf : Nat → Nat)
    (offset length inum : Nat) (fs0 : FS) (hmode : fs0.raidMode ≠ RAID0)
    (hres : ∀ d, d < fs0.disks.length → (find_inode_by_path fs0 path d).1 = some inum) :
    ∀ (fuel : Nat), ∀ (cur : Nat) (fs : FS),
      fs.raidMode = fs0.raidMode → fs.errorCode = fs0.errorCode →
      fs.disks.length = fs0.disks.length →
      (∀ i, (fs.disk i).dirs = (fs0.disk i).dirs) →
      (∀ i, (fs.disk i).iBitmap = (fs0.disk i).iBitmap) →
      (∀ i n, cur ≤ i → ((fs.disk i).inodes n).size = ((fs0.disk i).inodes n).size) →
      cur + fuel = fs0.disks.length → 0 < fuel →
      ((writeLoopDisks path buf offset length fuel cur fs).1 = (length : Int) ∨
        ((writeLoopDisks path buf offset length fuel cur fs).1 = fs0.errorCode ∧
          ((writeLoopDisks path buf offset length fuel cur fs).2).errorCode
            = fs0.errorCode ∧
          ∃ t, t < fs0.disks.length ∧
            ((((writeLoopDisks path buf offset length fuel cur fs).2).disk t).inodes
              inum).size = ((fs0.disk t).inodes inum).size)) := by
  intro fuel
  induction fuel with
  | zero => intro cur fs _ _ _ _ _ _ _ hpos; omega
  | succ n ih =>
    intro cur fs hr he hl hdir hib hsz hfuel _
    have hcur : cur < fs0.disks.length := by omega
    have hfind : (find_inode_by_path fs path cur).1 = some inum :=
      (find_fst_congr fs0 fs path cur (hdir cur) (hib cur)).trans (hres cur hcur)
    have S := writePass_spec fs path buf offset length cur inum
      (by rw [hr]; exact hmode) hfind
    unfold writeLoopDisks
    rcases hp : writePass fs path buf offset length cur with ⟨ropt, fs1⟩
    rw [hp] at S
    dsimp only at S
    obtain ⟨p1, p2, p3, p4, p5, p6, p7⟩ := S
    cases ropt with
    | some r =>
      dsimp only
      rcases p7 with h7 | ⟨h7, hAll⟩
      · exact Option.noConfusion h7
      · refine Or.inr ⟨(Option.some.inj h7).trans he, p2.trans he,
          ⟨cur, hcur, (hAll cur inum).trans (hsz cur inum (Nat.le_refl cur))⟩⟩
    | none =>
      dsimp only
      by_cases hlast : cur = fs0.disks.length - 1
      · rw [if_pos (Or.inr (hlast.trans (by rw [p3, hl])))]
        exact Or.inl rfl
      · rw [if_neg (fun hc => hc.elim
          (fun h => hmode ((p1.trans hr).symm.trans h))
          (fun h => hlast (h.trans (by rw [p3, hl]))))]
        exact ih (cur + 1) fs1 (p1.trans hr) (p2.trans he) (p3.trans hl)
          (fun i => (p4 i).trans (hdir i)) (fun i => (p5 i).trans (hib i))
          (fun i m hi => (p6 i m (by omega)).trans (hsz i m (by omega)))
          (by omega) (by omega)

/-- C5, corrected.  On a mirroring (non-RAID0) volume whose path resolves
to the same inode on every disk, wfs_write either reports the full
requested length written, or stops early and returns the error code that
was already in the global error_code before the call — allocation failure
does not set ENOSPC — and then the inode size on at least one disk (the
one whose round failed) is exactly its old value, so the size does not
grow to cover the bytes already written. -/
theorem C5_amended (fs : FS) (path : List String) (buf : Nat → Nat)
    (offset length inum : Nat)
    (hmode : fs.raidMode ≠ RAID0) (hD : 0 < fs.disks.length)
    (hres : ∀ d, d < fs.disks.length → (find_inode_by_path fs path d).1 = some inum) :
    C5Concl fs path buf offset length inum := by
  unfold C5Concl wfs_write
  exact writeLoopDisks_spec path buf offset length inum fs hmode hres
    fs.disks.length 0 fs rfl rfl rfl (fun _ => rfl) (fun _ => rfl)
    (fun _ _ _ => rfl) (by omega) hD

theorem C5_amended_witness : C5Concl fsC1 ["f"] (fun _ => 65) 0 1 1 :=
  C5_amended fsC1 ["f"] (fun _ => 65) 0 1 1 (by decide) (by decide)
    (fun d hd => by
      have hd2 : d < 2 := hd
      interval_cases d <;> decide)

end WFS
